import Mathlib
set_option maxRecDepth 8000

/-!
Verification of the ai-modernization-engine content pipeline.

The Python sources are shallowly embedded: pure functions become Lean
functions over `List Char` / `String`, IEEE floats become `ℚ` (the
numeric claims of the spec concern exact decimal thresholds), and the
external effects of a batch run (HTTP fetch, HTML extraction by bs4,
the chat-completion call, the document store) are modelled as oracle
data carried by each candidate record.  Fallible Python code (raised
exceptions) is modelled with `Option` / `Except`.
-/

/-! ### Kernel-reducible rational arithmetic

The library operations on `ℚ` are `@[irreducible]`, which blocks concrete
evaluation inside `decide` / `rfl`.  The embedding therefore computes with
the clones below, each proved equal to the corresponding library
operation, so that every claim can still be stated with the ordinary
`+ - * / ≤` on `ℚ`. -/

def qAdd (a b : ℚ) : ℚ := mkRat (a.num * b.den + b.num * a.den) (a.den * b.den)

def qSub (a b : ℚ) : ℚ := mkRat (a.num * b.den - b.num * a.den) (a.den * b.den)

def qMul (a b : ℚ) : ℚ := mkRat (a.num * b.num) (a.den * b.den)

def qNeg (a : ℚ) : ℚ := mkRat (-a.num) a.den

def qDiv (a b : ℚ) : ℚ := Rat.divInt (a.num * b.den) (a.den * b.num)

/-! ### Python character/string primitives -/

/-- The ASCII whitespace characters recognised by Python `str.strip()` and by
the regex class `\s` (the Unicode additions are irrelevant to this code
base, which handles ASCII payloads). -/
def isPySpace (c : Char) : Bool :=
  c = ' ' || c = '\t' || c = '\n' || c = '\r' || c = '\x0b' || c = '\x0c'

/-- The regex class `[a-zA-Z]`. -/
def isAsciiAlpha (c : Char) : Bool :=
  ('a' ≤ c && c ≤ 'z') || ('A' ≤ c && c ≤ 'Z')

/-- Python `str.strip()`: drop whitespace from both ends. -/
def pyStrip (l : List Char) : List Char :=
  ((l.dropWhile isPySpace).reverse.dropWhile isPySpace).reverse

/-- Python `text.split("\n")` on a character list. -/
def splitOnNl : List Char → List (List Char)
  | [] => [[]]
  | c :: rest =>
    if c = '\n' then [] :: splitOnNl rest
    else
      match splitOnNl rest with
      | [] => [[c]]
      | s :: ss => (c :: s) :: ss

/-- Python truthiness of an optional string (`if x:` with `x : Optional[str]`). -/
def pyTruthyStr : Option String → Bool
  | none => false
  | some s => s ≠ ""

/-! ### Python values produced by `json.loads` / `ast.literal_eval` -/

/-- The Python values reachable from the JSON / literal parsers in this code
base.  Numbers are modelled as `ℚ` (Python `int` and `float` compare equal
when numerically equal, so one constructor suffices); dict keys are
restricted to strings, which is all `json.loads` can produce and all the
code ever looks up. -/
inductive PyVal : Type where
  | obj : List (String × PyVal) → PyVal
  | arr : List PyVal → PyVal
  | str : String → PyVal
  | num : ℚ → PyVal
  | boolean : Bool → PyVal
  | none : PyVal
  | set : List PyVal → PyVal

/-- Python `dict.get(k, default)`; on duplicate keys `json.loads` keeps the
last binding, hence the lookup from the right.  Calling `.get` on a
non-dict raises `AttributeError`, modelled as `.error`. -/
def dictGet (v : PyVal) (k : String) (dflt : PyVal) : Except Unit PyVal :=
  match v with
  | .obj l =>
    match l.reverse.find? (fun p => p.1 = k) with
    | Option.some p => .ok p.2
    | Option.none => .ok dflt
  | _ => .error ()

/-- Python truthiness of a value. -/
def pyTruthyVal : PyVal → Bool
  | .obj l => !l.isEmpty
  | .arr l => !l.isEmpty
  | .str s => s != ""
  | .num q => q != 0
  | .boolean b => b
  | .none => false
  | .set l => !l.isEmpty

/-- Python iteration `for x in v`: lists yield elements, strings yield
one-character strings, dicts yield keys, sets yield elements; numbers,
booleans and `None` raise `TypeError`. -/
def pyIter : PyVal → Except Unit (List PyVal)
  | .arr l => .ok l
  | .str s => .ok (s.toList.map (fun c => .str (String.mk [c])))
  | .obj l => .ok (l.map (fun p => .str p.1))
  | .set l => .ok l
  | _ => .error ()

/-! Python `str()` of a value (as used by an f-string interpolation). -/

mutual

/-- Python `repr()` of a value, used by `str()` inside containers.  Exact
only for strings, integers, booleans and `None`; non-integral rationals
are rendered as fractions, a divergence from CPython float `repr` that no
claim depends on. -/
def pyRepr : PyVal → String
  | .str s => "'" ++ s ++ "'"
  | .num q => if q.den = 1 then toString q.num else toString q.num ++ "/" ++ toString q.den
  | .boolean b => if b then "True" else "False"
  | .none => "None"
  | .obj l => "\x7b" ++ String.intercalate ", " (pyReprPairs l) ++ "\x7d"
  | .arr l => "[" ++ String.intercalate ", " (pyReprList l) ++ "]"
  | .set l => "\x7b" ++ String.intercalate ", " (pyReprList l) ++ "\x7d"

def pyReprList : List PyVal → List String
  | [] => []
  | v :: vs => pyRepr v :: pyReprList vs

def pyReprPairs : List (String × PyVal) → List String
  | [] => []
  | p :: ps => ("'" ++ p.1 ++ "': " ++ pyRepr p.2) :: pyReprPairs ps

end

def pyStr : PyVal → String
  | .str s => s
  | v => pyRepr v

/-- Python `float(v)`: numbers pass through, booleans become 0/1, numeric
strings are parsed (whitespace-stripped; the special forms inf/nan are not
modelled), everything else raises. -/
def pyFloat (v : PyVal) : Except Unit ℚ :=
  match v with
  | .num q => .ok q
  | .boolean b => .ok (if b then 1 else 0)
  | .str s => pyFloatOfString (pyStrip s.toList)
  | _ => .error ()
where
  /-- Parse `[+-]?digits[.digits]` as a rational. -/
  pyFloatOfString (l : List Char) : Except Unit ℚ :=
    let (isNeg, l) : Bool × List Char :=
      match l with
      | '-' :: rest => (true, rest)
      | '+' :: rest => (false, rest)
      | l => (false, l)
    let intPart := l.takeWhile Char.isDigit
    let rest := l.dropWhile Char.isDigit
    let digitsVal : List Char → ℚ :=
      fun ds => mkRat (ds.foldl (fun a c => a * 10 + (c.toNat - '0'.toNat)) 0 : ℕ) 1
    let signed : ℚ → Except Unit ℚ := fun m => .ok (if isNeg then qNeg m else m)
    match rest with
    | [] =>
      if intPart.isEmpty then .error ()
      else signed (digitsVal intPart)
    | '.' :: frac =>
      if frac.all Char.isDigit && (!intPart.isEmpty || !frac.isEmpty) then
        signed (qAdd (digitsVal intPart)
          (mkRat (frac.foldl (fun a c => a * 10 + (c.toNat - '0'.toNat)) 0 : ℕ) (10 ^ frac.length)))
      else .error ()
    | _ => .error ()

/-! ### Strict JSON parsing (`json.loads`)

A recursive-descent parser for the RFC 8259 grammar that `json.loads`
implements: objects, arrays, double-quoted strings with escapes, numbers
(no leading zeros, optional fraction and exponent), `true`/`false`/`null`,
with whitespace (space, tab, newline, return) between tokens and nothing but
whitespace allowed around the top-level value.  Recursion is bounded by a
fuel argument; `json_loads` supplies fuel `length + 1`, which is enough
because every fuel step consumes at least one input character.
Not modelled (never produced by the prompts of this pipeline and exercised by
no claim): surrogate-pair recombination for `\uXXXX` escapes.  -/

/-- JSON inter-token whitespace (space, tab, newline, carriage return). -/
def isJsonWs (c : Char) : Bool :=
  c = ' ' || c = '\t' || c = '\n' || c = '\r'

def skipJsonWs (s : List Char) : List Char := s.dropWhile isJsonWs

def hexDigitVal (c : Char) : Option ℕ :=
  if '0' ≤ c && c ≤ '9' then Option.some (c.toNat - '0'.toNat)
  else if 'a' ≤ c && c ≤ 'f' then Option.some (c.toNat - 'a'.toNat + 10)
  else if 'A' ≤ c && c ≤ 'F' then Option.some (c.toNat - 'A'.toNat + 10)
  else Option.none

/-- Body of a JSON string after the opening quote: returns the decoded
characters and the input remaining after the closing quote. -/
def parseJStr : List Char → Option (List Char × List Char)
  | [] => Option.none
  | '"' :: rest => Option.some ([], rest)
  | '\\' :: e :: rest =>
    match e with
    | '"' => (parseJStr rest).map (fun p => ('"' :: p.1, p.2))
    | '\\' => (parseJStr rest).map (fun p => ('\\' :: p.1, p.2))
    | '/' => (parseJStr rest).map (fun p => ('/' :: p.1, p.2))
    | 'b' => (parseJStr rest).map (fun p => ('\x08' :: p.1, p.2))
    | 'f' => (parseJStr rest).map (fun p => ('\x0c' :: p.1, p.2))
    | 'n' => (parseJStr rest).map (fun p => ('\n' :: p.1, p.2))
    | 'r' => (parseJStr rest).map (fun p => ('\r' :: p.1, p.2))
    | 't' => (parseJStr rest).map (fun p => ('\t' :: p.1, p.2))
    | 'u' =>
      match rest with
      | h1 :: h2 :: h3 :: h4 :: rest2 =>
        match hexDigitVal h1, hexDigitVal h2, hexDigitVal h3, hexDigitVal h4 with
        | Option.some a, Option.some b, Option.some c, Option.some d =>
          (parseJStr rest2).map
            (fun p => (Char.ofNat (((a * 16 + b) * 16 + c) * 16 + d) :: p.1, p.2))
        | _, _, _, _ => Option.none
      | _ => Option.none
    | _ => Option.none
  | c :: rest =>
    if c.toNat < 0x20 then Option.none
    else (parseJStr rest).map (fun p => (c :: p.1, p.2))

def natOfDigits (ds : List Char) : ℕ :=
  ds.foldl (fun a c => a * 10 + (c.toNat - '0'.toNat)) 0

/-- A JSON number: `-? (0 | [1-9][0-9]*) (. [0-9]+)? ([eE][+-]?[0-9]+)?`. -/
def parseJNum (s : List Char) : Option (PyVal × List Char) :=
  let (neg, s1) : Bool × List Char :=
    match s with
    | '-' :: r => (true, r)
    | _ => (false, s)
  let ds := s1.takeWhile Char.isDigit
  let r1 := s1.dropWhile Char.isDigit
  if ds.isEmpty then Option.none
  else if 1 < ds.length && ds.head? = Option.some '0' then Option.none
  else
    let step2 : Option (ℚ × List Char) :=
      match r1 with
      | '.' :: fr =>
        let fds := fr.takeWhile Char.isDigit
        if fds.isEmpty then Option.none
        else
          Option.some
            (qAdd (mkRat (natOfDigits ds) 1) (mkRat (natOfDigits fds) (10 ^ fds.length)),
              fr.dropWhile Char.isDigit)
      | _ => Option.some (mkRat (natOfDigits ds) 1, r1)
    match step2 with
    | Option.none => Option.none
    | Option.some (base, r2) =>
      let withSign := if neg then qNeg base else base
      match r2 with
      | 'e' :: r3 => parseJExp withSign r3
      | 'E' :: r3 => parseJExp withSign r3
      | _ => Option.some (.num withSign, r2)
where
  parseJExp (base : ℚ) (r : List Char) : Option (PyVal × List Char) :=
    let (eneg, r1) : Bool × List Char :=
      match r with
      | '-' :: t => (true, t)
      | '+' :: t => (false, t)
      | _ => (false, r)
    let eds := r1.takeWhile Char.isDigit
    if eds.isEmpty then Option.none
    else
      let e := natOfDigits eds
      let v := if eneg then qDiv base (mkRat (10 ^ e) 1) else qMul base (mkRat (10 ^ e) 1)
      Option.some (.num v, r1.dropWhile Char.isDigit)

mutual

/-- One JSON value; the input must start at a non-whitespace character. -/
def parseJVal : ℕ → List Char → Option (PyVal × List Char)
  | 0, _ => Option.none
  | fuel + 1, s =>
    match s with
    | '{' :: rest =>
      (match skipJsonWs rest with
       | '}' :: r2 => Option.some (.obj [], r2)
       | r2 => parseJMembers fuel r2 [])
    | '[' :: rest =>
      (match skipJsonWs rest with
       | ']' :: r2 => Option.some (.arr [], r2)
       | r2 => parseJItems fuel r2 [])
    | '"' :: rest => (parseJStr rest).map (fun p => (.str (String.mk p.1), p.2))
    | 't' :: 'r' :: 'u' :: 'e' :: rest => Option.some (.boolean true, rest)
    | 'f' :: 'a' :: 'l' :: 's' :: 'e' :: rest => Option.some (.boolean false, rest)
    | 'n' :: 'u' :: 'l' :: 'l' :: rest => Option.some (.none, rest)
    | s => parseJNum s

/-- Object members, positioned at the opening quote of the next key. -/
def parseJMembers : ℕ → List Char → List (String × PyVal) →
    Option (PyVal × List Char)
  | 0, _, _ => Option.none
  | fuel + 1, s, acc =>
    match s with
    | '"' :: rest =>
      (match parseJStr rest with
       | Option.some (k, r1) =>
         (match skipJsonWs r1 with
          | ':' :: r2 =>
            (match parseJVal fuel (skipJsonWs r2) with
             | Option.some (v, r3) =>
               (match skipJsonWs r3 with
                | ',' :: r4 =>
                  parseJMembers fuel (skipJsonWs r4) (acc ++ [(String.mk k, v)])
                | '}' :: r4 => Option.some (.obj (acc ++ [(String.mk k, v)]), r4)
                | _ => Option.none)
             | Option.none => Option.none)
          | _ => Option.none)
       | Option.none => Option.none)
    | _ => Option.none

/-- Array items, positioned at the start of the next value. -/
def parseJItems : ℕ → List Char → List PyVal → Option (PyVal × List Char)
  | 0, _, _ => Option.none
  | fuel + 1, s, acc =>
    match parseJVal fuel s with
    | Option.some (v, r1) =>
      (match skipJsonWs r1 with
       | ',' :: r2 => parseJItems fuel (skipJsonWs r2) (acc ++ [v])
       | ']' :: r2 => Option.some (.arr (acc ++ [v]), r2)
       | _ => Option.none)
    | Option.none => Option.none

end

/-- Model of Python `json.loads` on a character list. -/
def jsonLoadsL (s : List Char) : Option PyVal :=
  match parseJVal (s.length + 1) (skipJsonWs s) with
  | Option.some (v, rest) =>
    if (skipJsonWs rest).isEmpty then Option.some v else Option.none
  | Option.none => Option.none

/-- Model of Python `json.loads`. -/
def json_loads (raw : String) : Option PyVal := jsonLoadsL raw.toList

/-! ### The regex transformations used by the two extractors -/

/-- `re.sub(r"^```[a-zA-Z]*\s*", "", raw)` under the guard
`raw.startswith("```")`: drop the three backticks, an optional language
tag, and following whitespace. -/
def stripOpenFence (s : List Char) : List Char :=
  match s with
  | '`' :: '`' :: '`' :: rest => (rest.dropWhile isAsciiAlpha).dropWhile isPySpace
  | s => s

/-- `re.sub(r"\s*```$", "", raw)`: if the text ends with three backticks,
remove them together with the whitespace run before them. -/
def stripCloseFence (s : List Char) : List Char :=
  match s.reverse with
  | '`' :: '`' :: '`' :: rest => ((rest.dropWhile isPySpace)).reverse
  | _ => s

/-- The fence-stripping prelude shared by both extractors: the two
substitutions run only when the text starts with three backticks, and the
result is stripped. -/
def stripFences (s : List Char) : List Char :=
  if s.take 3 = ['`', '`', '`'] then
    pyStrip (stripCloseFence (stripOpenFence s))
  else s

/-- `re.search(r"\{.*\}", raw, re.DOTALL)`: with a greedy dot the match, if
any, runs from the first opening brace to the last closing brace after it. -/
def firstBraceSpan (s : List Char) : Option (List Char) :=
  let fromBrace := s.dropWhile (fun c => !(c = '{'))
  match (fromBrace.reverse.dropWhile (fun c => !(c = '}'))).reverse with
  | [] => Option.none
  | span => Option.some span

/-- `re.sub(r",\s*([}\]])", r"\1", candidate)` as a left-to-right scan.
The first argument buffers a pending `,` together with the whitespace
seen after it (a partial regex match); a closing brace or bracket
completes the match and drops the buffer, anything else flushes it.
Scanning resumes after a replacement, as `re.sub` does. -/
def repairGo : List Char → List Char → List Char
  | buf, [] => buf
  | buf, c :: rest =>
    if buf.isEmpty then
      if c = ',' then repairGo [','] rest
      else c :: repairGo [] rest
    else
      if isPySpace c then repairGo (buf ++ [c]) rest
      else if c = '}' || c = ']' then c :: repairGo [] rest
      else if c = ',' then buf ++ repairGo [','] rest
      else (buf ++ [c]) ++ repairGo [] rest

def repairTrailingCommas (l : List Char) : List Char := repairGo [] l

/-! ### Relaxed literal parsing (`ast.literal_eval`)

Step 5 of the weekly-draft `extract_json` falls back to
`ast.literal_eval(repaired)`.  The model covers the literal forms that a
model response can plausibly contain: dicts, sets, lists, tuples,
single- or double-quoted strings, numbers with an optional sign,
`True` / `False` / `None`, and trailing commas inside any container.
Restrictions (all irrelevant to the claims): dict keys are modelled as
string literals only, and the exotic numeric and string spellings
(hex / octal / binary integers, underscores, string prefixes, adjacent
string concatenation, complex numbers) are not modelled. -/

/-- Python source whitespace inside a literal expression. -/
def skipPWs (s : List Char) : List Char := s.dropWhile isPySpace

/-- Body of a Python string literal after the opening quote `q`.  Unknown
escapes keep the backslash, as CPython does. -/
def parsePStr (q : Char) : List Char → Option (List Char × List Char)
  | [] => Option.none
  | '\\' :: e :: rest =>
    (parsePStr q rest).map (fun p =>
      ((match e with
        | '\\' => ['\\']
        | '\'' => ['\'']
        | '"' => ['"']
        | 'n' => ['\n']
        | 't' => ['\t']
        | 'r' => ['\r']
        | 'b' => ['\x08']
        | 'f' => ['\x0c']
        | 'v' => ['\x0b']
        | '0' => ['\x00']
        | e => ['\\', e]) ++ p.1, p.2))
  | c :: rest =>
    if c = q then Option.some ([], rest)
    else (parsePStr q rest).map (fun p => (c :: p.1, p.2))

/-- A Python number literal `[+-]? digits [. digits] [eE [+-] digits]`,
rejecting the leading zeros that CPython rejects. -/
def parsePNum (s : List Char) : Option (PyVal × List Char) :=
  let (neg, s1) : Bool × List Char :=
    match s with
    | '-' :: r => (true, r)
    | '+' :: r => (false, r)
    | _ => (false, s)
  let ds := s1.takeWhile Char.isDigit
  let r1 := s1.dropWhile Char.isDigit
  if ds.isEmpty then Option.none
  else if 1 < ds.length && ds.head? = Option.some '0' && !(ds.all (fun c => c = '0')) then
    Option.none
  else
    let fracStep : Option (ℚ × List Char) :=
      match r1 with
      | '.' :: fr =>
        let fds := fr.takeWhile Char.isDigit
        Option.some
          (qAdd (mkRat (natOfDigits ds) 1) (mkRat (natOfDigits fds) (10 ^ fds.length)),
            fr.dropWhile Char.isDigit)
      | _ => Option.some (mkRat (natOfDigits ds) 1, r1)
    match fracStep with
    | Option.none => Option.none
    | Option.some (base, r2) =>
      let signed := if neg then qNeg base else base
      match r2 with
      | 'e' :: r3 => parsePExp signed r3
      | 'E' :: r3 => parsePExp signed r3
      | _ => Option.some (.num signed, r2)
where
  parsePExp (base : ℚ) (r : List Char) : Option (PyVal × List Char) :=
    let (eneg, r1) : Bool × List Char :=
      match r with
      | '-' :: t => (true, t)
      | '+' :: t => (false, t)
      | _ => (false, r)
    let eds := r1.takeWhile Char.isDigit
    if eds.isEmpty then Option.none
    else
      let e := natOfDigits eds
      let v := if eneg then qDiv base (mkRat (10 ^ e) 1) else qMul base (mkRat (10 ^ e) 1)
      Option.some (.num v, r1.dropWhile Char.isDigit)

mutual

/-- One Python literal; leading whitespace must already be skipped. -/
def parsePVal : ℕ → List Char → Option (PyVal × List Char)
  | 0, _ => Option.none
  | fuel + 1, s =>
    match s with
    | '{' :: rest =>
      (match skipPWs rest with
       | '}' :: r2 => Option.some (.obj [], r2)
       | r2 =>
         -- Parse the first element, then decide between dict and set.
         (match r2 with
          | '"' :: r3 =>
            (match parsePStr '"' r3 with
             | Option.some (k, r4) => parsePBrace fuel (String.mk k) r4
             | Option.none => Option.none)
          | '\'' :: r3 =>
            (match parsePStr '\'' r3 with
             | Option.some (k, r4) => parsePBrace fuel (String.mk k) r4
             | Option.none => Option.none)
          | r2 =>
            (match parsePVal fuel r2 with
             | Option.some (v, r3) =>
               (match skipPWs r3 with
                | ',' :: r4 => parsePSet fuel (skipPWs r4) [v]
                | '}' :: r4 => Option.some (.set [v], r4)
                | _ => Option.none)
             | Option.none => Option.none)))
    | '[' :: rest => parsePSeq fuel ']' (skipPWs rest) []
    | '(' :: rest => parsePSeq fuel ')' (skipPWs rest) []
    | '"' :: rest => (parsePStr '"' rest).map (fun p => (.str (String.mk p.1), p.2))
    | '\'' :: rest => (parsePStr '\'' rest).map (fun p => (.str (String.mk p.1), p.2))
    | 'T' :: 'r' :: 'u' :: 'e' :: rest => Option.some (.boolean true, rest)
    | 'F' :: 'a' :: 'l' :: 's' :: 'e' :: rest => Option.some (.boolean false, rest)
    | 'N' :: 'o' :: 'n' :: 'e' :: rest => Option.some (.none, rest)
    | s => parsePNum s

/-- After a first string at brace depth: a colon starts a dict, a comma or
closing brace makes it a set of one string. -/
def parsePBrace : ℕ → String → List Char → Option (PyVal × List Char)
  | 0, _, _ => Option.none
  | fuel + 1, k, s =>
    match skipPWs s with
    | ':' :: r =>
      (match parsePVal fuel (skipPWs r) with
       | Option.some (v, r2) => parsePDict fuel (skipPWs r2) [(k, v)]
       | Option.none => Option.none)
    | ',' :: r => parsePSet fuel (skipPWs r) [.str k]
    | '}' :: r => Option.some (.set [.str k], r)
    | _ => Option.none

/-- Dict continuation, positioned just after a completed pair. -/
def parsePDict : ℕ → List Char → List (String × PyVal) → Option (PyVal × List Char)
  | 0, _, _ => Option.none
  | fuel + 1, s, acc =>
    match s with
    | '}' :: r => Option.some (.obj acc, r)
    | ',' :: r =>
      (match skipPWs r with
       | '}' :: r2 => Option.some (.obj acc, r2)
       | '"' :: r2 => parsePPair fuel '"' r2 acc
       | '\'' :: r2 => parsePPair fuel '\'' r2 acc
       | _ => Option.none)
    | _ => Option.none

/-- One further `key: value` dict pair, after the opening quote of the key. -/
def parsePPair : ℕ → Char → List Char → List (String × PyVal) →
    Option (PyVal × List Char)
  | 0, _, _, _ => Option.none
  | fuel + 1, q, s, acc =>
    match parsePStr q s with
    | Option.some (k, r1) =>
      (match skipPWs r1 with
       | ':' :: r2 =>
         (match parsePVal fuel (skipPWs r2) with
          | Option.some (v, r3) => parsePDict fuel (skipPWs r3) (acc ++ [(String.mk k, v)])
          | Option.none => Option.none)
       | _ => Option.none)
    | Option.none => Option.none

/-- Set continuation, positioned at the start of the next element or at the
closing brace (trailing commas allowed). -/
def parsePSet : ℕ → List Char → List PyVal → Option (PyVal × List Char)
  | 0, _, _ => Option.none
  | fuel + 1, s, acc =>
    match s with
    | '}' :: r => Option.some (.set acc, r)
    | s =>
      match parsePVal fuel s with
      | Option.some (v, r1) =>
        (match skipPWs r1 with
         | ',' :: r2 => parsePSet fuel (skipPWs r2) (acc ++ [v])
         | '}' :: r2 => Option.some (.set (acc ++ [v]), r2)
         | _ => Option.none)
      | Option.none => Option.none

/-- List or tuple elements up to the closing bracket `close`; a
parenthesized single value without a comma is that value, not a tuple. -/
def parsePSeq : ℕ → Char → List Char → List PyVal → Option (PyVal × List Char)
  | 0, _, _, _ => Option.none
  | fuel + 1, close, s, acc =>
    match s with
    | c :: r =>
      if c = close then
        Option.some ((if close = ')' && acc.length = 1 then acc.headD .none else .arr acc), r)
      else
        (match parsePVal fuel s with
         | Option.some (v, r1) =>
           (match skipPWs r1 with
            | ',' :: r2 => parsePSeq fuel close (skipPWs r2) (acc ++ [v])
            | c2 :: r2 =>
              if c2 = close then
                Option.some
                  ((if close = ')' && (acc ++ [v]).length = 1 then v else .arr (acc ++ [v])), r2)
              else Option.none
            | [] => Option.none)
         | Option.none => Option.none)
    | [] => Option.none

end

/-- Model of `ast.literal_eval` on a character list. -/
def literalEvalL (s : List Char) : Option PyVal :=
  match parsePVal (s.length + 1) (skipPWs s) with
  | Option.some (v, rest) =>
    if (skipPWs rest).isEmpty then Option.some v else Option.none
  | Option.none => Option.none

/-! ### The two structured-output recovery functions -/

/-- The distinguishable failure modes of the two extractors. -/
inductive ExtractErr : Type where
  | emptyResponse
  | noJsonObject
  | jsonDecodeErr
  | literalSyntaxErr
  | notADict
deriving DecidableEq

/-- `summarize_articles._extract_json`: empty check on the raw argument,
strip, fence-strip, strict parse of the whole text, then strict parse of
the first brace span.  There is no repair step and no literal fallback. -/
def _extract_json (raw : String) : Except ExtractErr PyVal :=
  if raw = "" then .error .emptyResponse
  else
    let s := stripFences (pyStrip raw.toList)
    match jsonLoadsL s with
    | Option.some v => .ok v
    | Option.none =>
      match firstBraceSpan s with
      | Option.none => .error .noJsonObject
      | Option.some cand =>
        match jsonLoadsL cand with
        | Option.some v => .ok v
        | Option.none => .error .jsonDecodeErr

/-- `build_weekly_draft.extract_json`: strip, empty check, fence-strip,
strict parse, first brace span, trailing-comma repair, and finally
`ast.literal_eval` of the repaired span with a mapping-type check. -/
def extract_json (raw : String) : Except ExtractErr PyVal :=
  let s0 := pyStrip raw.toList
  if s0.isEmpty then .error .emptyResponse
  else
    let s := stripFences s0
    match jsonLoadsL s with
    | Option.some v => .ok v
    | Option.none =>
      match firstBraceSpan s with
      | Option.none => .error .noJsonObject
      | Option.some cand =>
        match jsonLoadsL cand with
        | Option.some v => .ok v
        | Option.none =>
          let repaired := repairTrailingCommas cand
          match jsonLoadsL repaired with
          | Option.some v => .ok v
          | Option.none =>
            match literalEvalL repaired with
            | Option.none => .error .literalSyntaxErr
            | Option.some (.obj l) => .ok (.obj l)
            | Option.some _ => .error .notADict

/-! ### Timestamps (`datetime.fromisoformat` and day arithmetic)

Datetimes are modelled as rational seconds since the Unix epoch; parsing
accepts `YYYY-MM-DD[ T hh[:mm[:ss[.ffffff]]]][±hh:mm[:ss]]` with range
validation, which is the portion of the ISO-8601 grammar this pipeline
ever receives from RSS timestamps.  A leading `Z` has already been
rewritten to `+00:00` by the caller, mirroring the `.replace` in
`score_relevance`. -/

def replaceZ : List Char → List Char
  | [] => []
  | 'Z' :: rest => '+' :: '0' :: '0' :: ':' :: '0' :: '0' :: replaceZ rest
  | c :: rest => c :: replaceZ rest

def digitVal (c : Char) : ℕ := c.toNat - '0'.toNat

def parse2 : List Char → Option (ℕ × List Char)
  | a :: b :: rest =>
    if a.isDigit && b.isDigit then Option.some (digitVal a * 10 + digitVal b, rest)
    else Option.none
  | _ => Option.none

def parse4 : List Char → Option (ℕ × List Char)
  | a :: b :: c :: d :: rest =>
    if a.isDigit && b.isDigit && c.isDigit && d.isDigit then
      Option.some (((digitVal a * 10 + digitVal b) * 10 + digitVal c) * 10 + digitVal d, rest)
    else Option.none
  | _ => Option.none

def isLeapYear (y : ℤ) : Bool := (y % 4 = 0 && ¬ y % 100 = 0) || y % 400 = 0

def daysInMonth (y m : ℤ) : ℤ :=
  if m = 2 then (if isLeapYear y then 29 else 28)
  else if m = 4 || m = 6 || m = 9 || m = 11 then 30
  else 31

/-- Days from 1970-01-01 to the given civil date (Howard Hinnant's
`days_from_civil` algorithm, as used by every proleptic-Gregorian
calendar implementation including CPython's `date.toordinal`). -/
def daysFromCivil (y m d : ℤ) : ℤ :=
  let y2 := if m ≤ 2 then y - 1 else y
  let era := Int.fdiv y2 400
  let yoe := y2 - era * 400
  let mAdj := if 2 < m then m - 3 else m + 9
  let doy := Int.fdiv (153 * mAdj + 2) 5 + d - 1
  let doe := yoe * 365 + Int.fdiv yoe 4 - Int.fdiv yoe 100 + doy
  era * 146097 + doe - 719468

/-- A trailing UTC-offset suffix; returns the additive adjustment that
converts the parsed local time to UTC (the empty suffix adjusts by 0,
matching the `tzinfo is None → UTC` branch in `score_relevance`). -/
def parseOffsetQ : List Char → Option ℚ
  | [] => Option.some 0
  | c :: rest =>
    if c = '+' || c = '-' then
      match parse2 rest with
      | Option.some (oh, r1) =>
        (match r1 with
         | ':' :: r2 =>
           (match parse2 r2 with
            | Option.some (om, r3) =>
              (match r3 with
               | ':' :: r4 =>
                 (match parse2 r4 with
                  | Option.some (os, r5) =>
                    if r5.isEmpty then
                      Option.some
                        (mkRat ((if c = '-' then 1 else -1) *
                          (3600 * (oh : ℤ) + 60 * om + os)) 1)
                    else Option.none
                  | Option.none => Option.none)
               | [] =>
                 Option.some
                   (mkRat ((if c = '-' then 1 else -1) * (3600 * (oh : ℤ) + 60 * om)) 1)
               | _ => Option.none)
            | Option.none => Option.none)
         | _ => Option.none)
      | Option.none => Option.none
    else Option.none

/-- The time-of-day part `hh[:mm[:ss[.ffffff]]]` plus optional offset,
returned as rational seconds (UTC-adjusted). -/
def parseTimeQ (l : List Char) : Option ℚ :=
  match parse2 l with
  | Option.none => Option.none
  | Option.some (hh, r1) =>
    if 24 ≤ hh then Option.none
    else
      match r1 with
      | ':' :: r2 =>
        (match parse2 r2 with
         | Option.none => Option.none
         | Option.some (mm, r3) =>
           if 60 ≤ mm then Option.none
           else
             match r3 with
             | ':' :: r4 =>
               (match parse2 r4 with
                | Option.none => Option.none
                | Option.some (ss, r5) =>
                  if 60 ≤ ss then Option.none
                  else
                    match r5 with
                    | '.' :: fr =>
                      let fds := fr.takeWhile Char.isDigit
                      if fds.isEmpty || 6 < fds.length then Option.none
                      else
                        (parseOffsetQ (fr.dropWhile Char.isDigit)).map (fun adj =>
                          qAdd (qAdd (mkRat (3600 * hh + 60 * mm + ss) 1)
                            (mkRat (natOfDigits fds) (10 ^ fds.length))) adj)
                    | r5 =>
                      (parseOffsetQ r5).map (fun adj =>
                        qAdd (mkRat (3600 * hh + 60 * mm + ss) 1) adj))
             | r3 =>
               (parseOffsetQ r3).map (fun adj => qAdd (mkRat (3600 * hh + 60 * mm) 1) adj))
      | r1 => (parseOffsetQ r1).map (fun adj => qAdd (mkRat (3600 * hh) 1) adj)

/-- Model of `datetime.fromisoformat` (on input with `Z` already replaced),
returning rational seconds since the epoch, UTC. -/
def fromisoformatQ (l : List Char) : Option ℚ :=
  match parse4 l with
  | Option.none => Option.none
  | Option.some (y, r1) =>
    match r1 with
    | '-' :: r2 =>
      (match parse2 r2 with
       | Option.none => Option.none
       | Option.some (m, r3) =>
         match r3 with
         | '-' :: r4 =>
           (match parse2 r4 with
            | Option.none => Option.none
            | Option.some (d, r5) =>
              if y < 1 || 9999 < y || m < 1 || 12 < m || d < 1 ||
                  daysInMonth (y : ℤ) (m : ℤ) < (d : ℤ) then Option.none
              else
                let base : ℚ := mkRat (86400 * daysFromCivil (y : ℤ) (m : ℤ) (d : ℤ)) 1
                match r5 with
                | [] => Option.some base
                | c :: r6 =>
                  if c = 'T' || c = ' ' then (parseTimeQ r6).map (fun t => qAdd base t)
                  else Option.none)
         | _ => Option.none)
    | _ => Option.none

/-! ### Relevance scoring (`relevance.py` and `config.py`) -/

/-- Python `str.lower()` as a character list (ASCII case mapping; the
keyword table and source names are ASCII). -/
def pyLower (s : String) : List Char := s.toList.map Char.toLower

/-- `List` prefix test. -/
def isPrefixL : List Char → List Char → Bool
  | [], _ => true
  | _ :: _, [] => false
  | a :: as, b :: bs => a = b && isPrefixL as bs

/-- The Python substring test `needle in hay`. -/
def isInfixL (needle : List Char) : List Char → Bool
  | [] => needle.isEmpty
  | b :: bs => isPrefixL needle (b :: bs) || isInfixL needle bs

/-- The keyword table from `config.py` (order preserved). -/
def KEYWORDS : List String := [
  "operating model", "governance", "portfolio governance", "decision rights",
  "decision velocity", "prioritization", "capital allocation", "resource allocation",
  "organizational design", "coordination debt",
  "program management", "technical program management", "portfolio management",
  "roadmap alignment", "cross-functional", "execution systems", "delivery system",
  "dependency management",
  "AI transformation", "AI strategy", "agentic", "automation", "workflow automation",
  "intelligent systems", "augmented decision-making", "AI operating model",
  "platform engineering", "internal developer platform", "modernization",
  "cloud architecture", "reliability engineering", "observability", "platform governance",
  "metrics", "measurement", "leading indicators", "lagging indicators",
  "performance systems", "risk management", "feedback loops",
  "change management", "transformation", "organizational transformation",
  "enterprise agility", "value stream"]

/-- The source-quality weight table from `relevance.py`, in insertion order
(CPython dicts iterate in insertion order, so the first-match-wins loop
is deterministic over this order).  Weights are the decimal literals of
the source: 1.2, 1.2, 1.15, 1.1, 1.1, 1.05, 1.05, 1.0, 1.0, 1.0. -/
def SOURCE_WEIGHTS : List (String × ℚ) := [
  ("Harvard Business Review", mkRat 12 10),
  ("MIT Sloan Management Review", mkRat 12 10),
  ("McKinsey", mkRat 115 100),
  ("InfoQ", mkRat 11 10),
  ("Thoughtworks", mkRat 11 10),
  ("CNCF", mkRat 105 100),
  ("Atlassian", mkRat 105 100),
  ("AWS", mkRat 1 1),
  ("Google", mkRat 1 1),
  ("Microsoft", mkRat 1 1)]

/-- The recency component of `score_relevance` (lines 36-45 of
`relevance.py`): 0 when the timestamp is falsy, the linear 25-to-0 decay
over 30 days when it parses, and the flat fallback 8.0 when parsing
raises.  `now` is the value of `datetime.now(timezone.utc)` in rational
epoch seconds; `(now - pub).days` floors the difference. -/
def recencyScore (published_iso : Option String) (now : ℚ) : ℚ :=
  match published_iso with
  | Option.none => 0
  | Option.some s =>
    if s = "" then 0
    else
      match fromisoformatQ (replaceZ s.toList) with
      | Option.some pub =>
        let age_days : ℤ := ⌊qDiv (qSub now pub) (mkRat 86400 1)⌋
        max 0 (qMul 25 (qSub 1 (qDiv (mkRat (min age_days 30) 1) (mkRat 30 1))))
      | Option.none => mkRat 8 1

/-- `relevance.score_relevance`: keyword component saturating at 60,
recency component, source multiplier with first match in table order,
and the final clamp onto `[0, 100]`. -/
def score_relevance (title excerpt source : String) (published_iso : Option String)
    (now : ℚ) : ℚ × List String :=
  let text := pyLower (title ++ "\n" ++ excerpt)
  let matched := KEYWORDS.filter (fun kw => isInfixL (pyLower kw) text)
  let kw_score : ℚ := min 60 (qMul 8 (mkRat matched.dedup.length 1))
  let recency_score := recencyScore published_iso now
  let mult : ℚ :=
    match SOURCE_WEIGHTS.find? (fun p => isInfixL (pyLower p.1) (pyLower source)) with
    | Option.some p => p.2
    | Option.none => 1
  let raw := qMul (qAdd kw_score recency_score) mult
  (max 0 (min 100 raw), matched)

/-! ### Excerpt building (`extractor.py`)

`fetch_html` (network) and `extract_text_blocks` (BeautifulSoup) are
external effects; their joint outcome — the page title, heading strings
and paragraph strings — is oracle data on each candidate.  `build_excerpt`
itself is pure Python and is embedded below. -/

/-- `config.MAX_MATCH_TEXT_CHARS`. -/
def MAX_MATCH_TEXT_CHARS : ℕ := 4000

/-- `re.sub(r"[ \t]+", " ", text)`: collapse space/tab runs to one space.
The flag records whether the scan is inside a run. -/
def collapseSpaceTab : Bool → List Char → List Char
  | _, [] => []
  | inRun, c :: rest =>
    if c = ' ' || c = '\t' then
      if inRun then collapseSpaceTab true rest
      else ' ' :: collapseSpaceTab true rest
    else c :: collapseSpaceTab false rest

/-- `re.sub(r"\n{3,}", "\n\n", text)`: a run of three or more newlines
collapses to two.  The counter accumulates the pending newline run. -/
def collapseNl3 (k : ℕ) : List Char → List Char
  | [] => if 3 ≤ k then ['\n', '\n'] else List.replicate k '\n'
  | c :: rest =>
    if c = '\n' then collapseNl3 (k + 1) rest
    else
      (if 3 ≤ k then ['\n', '\n'] else List.replicate k '\n') ++
        c :: collapseNl3 0 rest

/-- `extractor._clean_whitespace`. -/
def _clean_whitespace (t : List Char) : List Char :=
  pyStrip (collapseNl3 0 (collapseSpaceTab false t))

/-- The keyword-paragraph selection loop of `build_excerpt`: scan the
paragraphs after the first four, append any that contains a keyword, and
stop once ten paragraphs are collected. -/
def buildSelLoop (kws : List (List Char)) : List String → List String → List String
  | sel, [] => sel
  | sel, p :: rest =>
    let sel2 := if kws.any (fun k => isInfixL k (pyLower p)) then sel ++ [p] else sel
    if 10 ≤ sel2.length then sel2 else buildSelLoop kws sel2 rest

/-- `extractor.build_excerpt` (default `max_chars = 12000`; the final cap
is `min max_chars MAX_MATCH_TEXT_CHARS`). -/
def build_excerpt (title : String) (headings paragraphs keywords : List String)
    (max_chars : ℕ := 12000) : List Char :=
  let kw_lower := keywords.map pyLower
  let selected := buildSelLoop kw_lower (paragraphs.take 4) (paragraphs.drop 4)
  let parts : List (List Char) :=
    (if title ≠ "" then [("TITLE: " ++ title).toList] else []) ++
    (if headings ≠ [] then
      ["HEADINGS:\n- ".toList ++
        List.intercalate "\n- ".toList ((headings.take 8).map String.toList)]
     else []) ++
    (if selected ≠ [] then
      ["CONTENT:\n".toList ++ List.intercalate "\n\n".toList (selected.map String.toList)]
     else [])
  let excerpt := _clean_whitespace (List.intercalate "\n\n".toList parts)
  excerpt.take (min max_chars MAX_MATCH_TEXT_CHARS)

/-! ### The batch summarization run (`summarize_articles.run`)

The store is an association list from page id to row; external effects
(the HTTP fetch plus BeautifulSoup extraction, and the chat-completion
call) are oracle data on each candidate page, so one `RunPage` value
fixes everything a loop iteration can observe.  Store writes themselves
are modelled as always succeeding; a transport failure of a write inside
the `try` block is one more caught exception and changes nothing below. -/

/-- A Research Library row as written by `update_research_page`. -/
structure Row where
  summary : List Char
  keyClaims : List Char
  tags : List (List Char)
  usefulnessScore : ℚ
  useInDraft : Bool
  processed : Bool
deriving DecidableEq

/-- One unprocessed candidate page together with the oracle outcomes of
its external calls: `fetch` is the joint result of `fetch_html` and
`extract_text_blocks` (title, headings, paragraphs; `.error` is a raised
network error), `llm` is the chat-completion content with the `or ""`
of the call site already applied (`.error` is a raised API error). -/
structure RunPage where
  id : ℕ
  title : String
  url : String
  source : String
  publishedIso : Option String
  fetch : Except Unit (String × List String × List String)
  llm : Except Unit String

/-- What one loop iteration did: the skip-branch write for a missing URL,
a caught exception (recording whether the model had been called), or a
successful write (recording the printed score and confidence). -/
inductive StepResult : Type where
  | skippedNoUrl (row : Row)
  | failed (llmCalled : Bool)
  | ok (row : Row) (score conf : ℚ)
deriving DecidableEq

/-- `notion_api.update_research_page` property marshalling: tags are
truthiness-filtered and sliced to 50 characters (a non-string tag value
raises — unsliceable types at `t[:50]`, sliceable non-strings at the
store API), text fields are sliced to 2000 characters. -/
def update_research_page (summary keyClaims : List Char) (tags : List PyVal)
    (usefulnessScore : ℚ) (useInDraft processed : Bool) : Except Unit Row := do
  let tagNames ← (tags.filter pyTruthyVal).mapM (fun t =>
    match t with
    | .str s => Except.ok (s.toList.take 50)
    | _ => Except.error ())
  pure ⟨summary.take 2000, keyClaims.take 2000, tagNames, usefulnessScore,
    useInDraft, processed⟩

/-- The row written by the missing-URL skip branch. -/
def skipRow : Row :=
  ⟨"(No URL found; skipped.)".toList, [], [], 0, false, true⟩

/-- Line 204 of `summarize_articles.run`:
`use_in_draft = bool(score >= 70.0 and confidence >= 0.6)`. -/
def useInDraftGate (score confidence : ℚ) : Bool :=
  decide (score ≥ 70 ∧ confidence ≥ mkRat 6 10)

/-- Lines 196-214 of `summarize_articles.run`: unpack the parsed model
output, convert confidence with `float`, build the truncated summary and
claims strings, apply the conjunctive gate, and marshal the update.  Any
raise inside is caught by the loop. -/
def buildRow (out : PyVal) (matched : List String) (score : ℚ) :
    Except Unit (Row × ℚ) := do
  let sbRaw ← dictGet out "summary_bullets" (.arr [])
  let sb := if pyTruthyVal sbRaw then sbRaw else .arr []
  let kcRaw ← dictGet out "key_claims" (.arr [])
  let kc := if pyTruthyVal kcRaw then kcRaw else .arr []
  let tagsRaw ← dictGet out "tags" (.arr [])
  let confRaw ← dictGet out "confidence" (.num (mkRat 1 2))
  let confidence ← pyFloat confRaw
  let sbList ← pyIter sb
  let summary := (List.intercalate ['\n']
    (sbList.map (fun b => "- ".toList ++ (pyStr b).toList))).take 1900
  let kcList ← pyIter kc
  let claims := (List.intercalate ['\n']
    (kcList.map (fun c => "- ".toList ++ (pyStr c).toList))).take 1900
  let use_in_draft := useInDraftGate score confidence
  let tagsList : List PyVal ←
    if pyTruthyVal tagsRaw then pyIter tagsRaw
    else pure ((if matched.isEmpty then [] else matched.take 6).map PyVal.str)
  let row ← update_research_page summary claims tagsList score use_in_draft true
  pure (row, confidence)

/-- `effective_title = title or page_title or url` (line 174). -/
def effectiveTitleOf (pg : RunPage) (page_title : String) : String :=
  if pg.title ≠ "" then pg.title else if page_title ≠ "" then page_title else pg.url

/-- The body of the `try` block after the fetch and extraction succeed:
excerpt length guard, local relevance score, model call, JSON recovery,
and the store update (lines 175-214). -/
def processFetched (now : ℚ) (minChars : ℕ) (pg : RunPage) (effective_title : String)
    (headings paragraphs : List String) : StepResult :=
  let excerpt := build_excerpt effective_title headings paragraphs KEYWORDS
  if excerpt.length < minChars then .failed false
  else
    let scored := score_relevance effective_title (String.mk excerpt) pg.source
      pg.publishedIso now
    match pg.llm with
    | .error _ => .failed true
    | .ok content =>
      match _extract_json (String.mk (pyStrip content.toList)) with
      | .error _ => .failed true
      | .ok out =>
        match buildRow out scored.2 scored.1 with
        | .ok rc => .ok rc.1 scored.1 rc.2
        | .error _ => .failed true

/-- One iteration of the `for page in pages` loop of
`summarize_articles.run`, with `minChars` the `MIN_EXCERPT_CHARS`
configuration value (default 500). -/
def processPage (now : ℚ) (minChars : ℕ) (pg : RunPage) : StepResult :=
  if pg.url = "" then
    -- The skip branch sits before the `try`; its update call cannot hit
    -- the tag-marshalling raise because its tag list is empty.
    match update_research_page "(No URL found; skipped.)".toList [] [] 0 false true with
    | .ok row => .skippedNoUrl row
    | .error _ => .failed false
  else
    match pg.fetch with
    | .error _ => .failed false
    | .ok (page_title, headings, paragraphs) =>
      processFetched now minChars pg (effectiveTitleOf pg page_title) headings paragraphs

/-- Replace every row of the given page id (`notion.pages.update`). -/
def updateStore (store : List (ℕ × Row)) (pid : ℕ) (row : Row) : List (ℕ × Row) :=
  store.map (fun e => if e.1 = pid then (pid, row) else e)

/-- The store effect of one loop iteration: a caught failure writes
nothing. -/
def runStep (now : ℚ) (minChars : ℕ) (store : List (ℕ × Row)) (pg : RunPage) :
    List (ℕ × Row) :=
  match processPage now minChars pg with
  | .skippedNoUrl row => updateStore store pg.id row
  | .failed _ => store
  | .ok row _ _ => updateStore store pg.id row

/-- `summarize_articles.run` over its fetched batch. -/
def run (now : ℚ) (minChars : ℕ) (pages : List RunPage) (store : List (ℕ × Row)) :
    List (ℕ × Row) :=
  pages.foldl (runStep now minChars) store

/-- `notion_api.query_unprocessed_research`: rows with `Processed = False`,
capped at the batch limit. -/
def queryUnprocessed (store : List (ℕ × Row)) (limit : ℕ) : List (ℕ × Row) :=
  (store.filter (fun e => e.2.processed = false)).take limit

/-! ### The weekly draft builder (`build_weekly_draft.py`)

UTC datetimes enter `monday_week_of_iso` only through their civil date
(`timedelta` subtraction of whole days shifts the date exactly, and
`.date()` discards the time), so dates are modelled as day numbers since
1970-01-01 — a Thursday, hence `weekday` is `(d + 3) mod 7` with Monday
numbered 0, exactly Python `date.weekday()`.  Rendering a date as an ISO
string is injective, so the Monday day number itself serves as the week
key.  The Content Queue is modelled as the list of week keys of its
pages; creating the weekly package appends its key. -/

/-- Python `date.weekday()` on a day number (Monday = 0; `%` on `ℤ` has a
nonnegative result for a positive modulus, like Python `%`). -/
def pyWeekday (d : ℤ) : ℤ := (d + 3) % 7

/-- `build_weekly_draft.monday_week_of_iso`: the Monday of the week of the
given day. -/
def monday_week_of (d : ℤ) : ℤ := d - pyWeekday d

/-- Two UTC dates fall in the same ISO week exactly when they lie in the
same Monday-aligned block of seven days (`/` on `ℤ` is floor division
here since the divisor is positive). -/
def sameIsoWeek (d1 d2 : ℤ) : Prop := (d1 + 3) / 7 = (d2 + 3) / 7

instance (d1 d2 : ℤ) : Decidable (sameIsoWeek d1 d2) :=
  inferInstanceAs (Decidable (_ = _))

/-- `notion_api.find_content_queue_page_for_week`: the `Week Of` date-equals
query succeeds iff a page with that week key exists. -/
def find_content_queue_page_for_week (store : List ℤ) (wk : ℤ) : Bool :=
  decide (wk ∈ store)

/-- `build_weekly_draft.main` as its effect on the Content Queue: return
unchanged on a duplicate week, on an empty candidate pool, or when
package generation raises before the page is created; otherwise create
the page for this week.  (`genFails` covers a raise of the generation
call; a raise after page creation still leaves the page persisted, which
is the `store ++ [week_of]` outcome.) -/
def buildWeeklyMain (genFails candidatesEmpty : Bool) (store : List ℤ) (today : ℤ) :
    List ℤ :=
  let week_of := monday_week_of today
  if find_content_queue_page_for_week store week_of then store
  else if candidatesEmpty then store
  else if genFails then store
  else store ++ [week_of]

/-! ### The draft selector (`score_source_for_topic` and the re-ranking
loop of `build_weekly_draft.main`) -/

/-- A fetched draft-ready candidate: the three text properties the
selector reads plus the `Usefulness Score` number property (absent or
null becomes `none`). -/
structure DraftSource where
  title : String
  summary : String
  keyClaims : String
  usefulness : Option ℚ
deriving DecidableEq

/-- `build_weekly_draft.score_source_for_topic`. -/
def score_source_for_topic (title summary claims : String)
    (topic_keywords : List String) : ℚ :=
  let text := pyLower (title ++ "\n" ++ summary ++ "\n" ++ claims)
  mkRat (topic_keywords.filter (fun kw => isInfixL (pyLower kw) text)).length 1

/-- `c["properties"]["Usefulness Score"]["number"] or 0.0` under the
`try/except` that maps a missing property to 0.0. -/
def usOf (c : DraftSource) : ℚ := c.usefulness.getD 0

/-- `combined = (us * 1.0) + (affinity * 5.0)`. -/
def combinedScore (kws : List String) (c : DraftSource) : ℚ :=
  qAdd (qMul (usOf c) 1) (qMul (score_source_for_topic c.title c.summary c.keyClaims kws) 5)

/-- The `scored` list built by the re-ranking loop. -/
def scoredList (kws : List String) (cands : List DraftSource) : List (ℚ × DraftSource) :=
  cands.map (fun c => (combinedScore kws c, c))

/-- `scored.sort(key=lambda x: x[0], reverse=True)`: Python sorts are
stable, and `reverse=True` keeps equal keys in original order, which is
exactly a stable merge sort under the relation `b.1 ≤ a.1`. -/
def sortScored (l : List (ℚ × DraftSource)) : List (ℚ × DraftSource) :=
  l.mergeSort (fun a b => decide (b.1 ≤ a.1))

/-- `selected = [c for _, c in scored[:MAX_SOURCES]]` after the sort. -/
def selectSources (kws : List String) (maxSources : ℕ) (cands : List DraftSource) :
    List DraftSource :=
  ((sortScored (scoredList kws cands)).take maxSources).map Prod.snd

/-! ### Block chunking (`notion_api._chunk_text`) -/

/-- `paras = [p.strip() for p in text.split("\n") if p.strip()]`. -/
def parasOf (text : List Char) : List (List Char) :=
  ((splitOnNl text).map pyStrip).filter (fun p => !p.isEmpty)

/-- The `while start < len(p)` hard-split loop.  The fuel `p.length` is
enough whenever `1 ≤ m`; for `m = 0` the Python loop does not terminate,
so every theorem about chunking assumes a positive limit. -/
def hardSplitAux : ℕ → ℕ → List Char → List (List Char)
  | 0, _, _ => []
  | _, _, [] => []
  | fuel + 1, m, p => p.take m :: hardSplitAux fuel m (p.drop m)

def hardSplit (m : ℕ) (p : List Char) : List (List Char) := hardSplitAux p.length m p

/-- The `for p in paras` accumulation loop of `_chunk_text`. -/
def chunkLoop (maxLen : ℕ) : List (List Char) → List Char → List (List Char)
  | [], cur => if cur.isEmpty then [] else [cur]
  | p :: rest, cur =>
    if maxLen < p.length then
      (if cur.isEmpty then [] else [cur]) ++ hardSplit maxLen p ++ chunkLoop maxLen rest []
    else if cur.length + p.length + 1 ≤ maxLen then
      chunkLoop maxLen rest (pyStrip (cur ++ '\n' :: p))
    else
      (if cur.isEmpty then [] else [cur]) ++ chunkLoop maxLen rest p

/-- `notion_api._chunk_text` (default `max_len = 1800`). -/
def _chunk_text (text : List Char) (max_len : ℕ := 1800) : List (List Char) :=
  if text.isEmpty then [[]]
  else chunkLoop max_len (parasOf text) []

/-- The concrete candidate used to witness C10. -/
def pgC10 : RunPage :=
  { id := 5, title := "t", url := "", source := "", publishedIso := Option.none,
    fetch := .error (), llm := .error () }

/-- The concrete candidate used to witness C1 (its batch run succeeds
with score 8 and confidence 0.7). -/
def pgC1 : RunPage :=
  { id := 1, title := "metrics", url := "http://x", source := "",
    publishedIso := Option.none,
    fetch := .ok ("", [], ["This paragraph talks about metrics and more metrics here."]),
    llm := .ok "\x7b\"confidence\": 0.7, \"summary_bullets\": [\"b1\"], \"key_claims\": [\"c1\"], \"tags\": [\"t1\"]\x7d" }

/-- The row the C1 witness candidate writes. -/
def rowC1 : Row := ⟨"- b1".toList, "- c1".toList, ["t1".toList], 8, false, true⟩

/-- The failing candidate used to witness C9: its page fetches, but the
page yields an excerpt shorter than the 500-character minimum. -/
def badC9 : RunPage :=
  { id := 2, title := "", url := "http://b", source := "", publishedIso := Option.none,
    fetch := .ok ("", [], []), llm := .error () }

/-- A second candidate in the witness batch (missing URL, so its
iteration is deterministic and writes the skip row). -/
def goodC9 : RunPage :=
  { id := 3, title := "t", url := "", source := "", publishedIso := Option.none,
    fetch := .error (), llm := .error () }

/-- A store row that has not been processed yet. -/
def rowUnprocessed : Row := ⟨[], [], [], 0, false, false⟩

/-- The witness store for C9: both candidates unprocessed. -/
def storeC9 : List (ℕ × Row) := [(2, rowUnprocessed), (3, rowUnprocessed)]

/-- Witness candidates for C6: A and C tie on combined score 10, B gets a
topic-affinity bump to 12. -/
def srcC6A : DraftSource := ⟨"a", "", "", Option.some 10⟩

def srcC6B : DraftSource := ⟨"bx", "", "", Option.some 7⟩

def srcC6C : DraftSource := ⟨"c", "", "", Option.some 10⟩

/-! ## Proofs -/

theorem qAdd_eq (a b : ℚ) : qAdd a b = a + b := (Rat.add_def' a b).symm

theorem qSub_eq (a b : ℚ) : qSub a b = a - b := (Rat.sub_def' a b).symm

theorem qMul_eq (a b : ℚ) : qMul a b = a * b := by
  rw [qMul, Rat.mul_def, Rat.normalize_eq_mkRat]

theorem qNeg_eq (a : ℚ) : qNeg a = -a := by
  rw [qNeg, ← Rat.neg_mkRat, Rat.mkRat_self]

theorem qDiv_eq (a b : ℚ) : qDiv a b = a / b := by
  rw [qDiv, Rat.div_def, Rat.inv_def]
  by_cases hb : b.num = 0
  · simp [hb, Rat.mul_comm]
  · conv_rhs => rw [← Rat.divInt_self a]
    rw [Rat.divInt_mul_divInt _ _ (Int.ofNat_ne_zero.mpr a.den_nz) hb]

/-! ## The claims -/

/-- C7: for every title, excerpt, source name, and published timestamp
(present, absent, or unparseable), the score returned by
`score_relevance` lies between 0 and 100 inclusive. -/
theorem claim_C7 (title excerpt source : String) (published_iso : Option String)
    (now : ℚ) :
    0 ≤ (score_relevance title excerpt source published_iso now).1 ∧
      (score_relevance title excerpt source published_iso now).1 ≤ 100 := by
  unfold score_relevance
  dsimp only
  exact ⟨le_max_left 0 _, max_le (by norm_num) (min_le_left 100 _)⟩

/-- C7 witness at a concrete input. -/
theorem claim_C7_witness :
    0 ≤ (score_relevance "metrics" "" "" Option.none 0).1 ∧
      (score_relevance "metrics" "" "" Option.none 0).1 ≤ 100 :=
  claim_C7 "metrics" "" "" Option.none 0

/-- C5 counterexample: with the published timestamp absent, the recency
component of `score_relevance` is 0, not the flat fallback 8 that the
claim asserts (so the whole score at this input is 0, not 8). -/
theorem claim_C5_counterexample :
    recencyScore Option.none 0 = 0 ∧ (score_relevance "" "" "" Option.none 0).1 = 0 ∧
      (0 : ℚ) ≠ 8 :=
  ⟨by decide, by decide, by norm_num⟩

/-- C5 amended: when the published timestamp is absent (or empty, both
falsy in Python) the recency component is 0; the flat fallback of 8
applies when a timestamp is present but fails to parse; in every case
`score_relevance` returns a value rather than raising. -/
theorem claim_C5 (now : ℚ) (s : String) (h1 : s ≠ "")
    (h2 : fromisoformatQ (replaceZ s.toList) = Option.none) :
    recencyScore Option.none now = 0 ∧ recencyScore (Option.some "") now = 0 ∧
      recencyScore (Option.some s) now = 8 := by
  refine ⟨rfl, rfl, ?_⟩
  unfold recencyScore
  simp only [if_neg h1, h2]
  norm_num [Rat.mkRat_eq_div]

/-- C5 witness: a concrete unparseable timestamp hits the fallback 8. -/
theorem claim_C5_witness :
    recencyScore Option.none 0 = 0 ∧ recencyScore (Option.some "") 0 = 0 ∧
      recencyScore (Option.some "not a date") 0 = 8 :=
  claim_C5 0 "not a date" (by decide) (by decide)

/-- C3: the weekly draft builder recovers the object `{"a": 1}` from the
bare object, the fenced block, the prefixed/suffixed text, and the
trailing-comma variant, and fails with a parse error (the
`No JSON object found in response` ValueError) on `not json at all`. -/
theorem claim_C3 :
    extract_json "\x7b\"a\":1\x7d" = .ok (.obj [("a", .num 1)]) ∧
    extract_json "```json\n\x7b\"a\":1\x7d\n```" = .ok (.obj [("a", .num 1)]) ∧
    extract_json "prefix text \x7b\"a\":1\x7d suffix" = .ok (.obj [("a", .num 1)]) ∧
    extract_json "\x7b\"a\":1,\x7d" = .ok (.obj [("a", .num 1)]) ∧
    extract_json "not json at all" = .error .noJsonObject :=
  ⟨rfl, rfl, rfl, rfl, rfl⟩

/-- C4 counterexample: the Summarizer recovery `_extract_json` has no
trailing-comma repair, so the repairable input fails where the claim
says it would be repaired. -/
theorem claim_C4_counterexample :
    _extract_json "\x7b\"a\":1,\x7d" = .error .jsonDecodeErr := rfl

/-- C4 amended: the Summarizer `_extract_json` succeeds only through
fence-stripping followed by a strict parse of the whole text or of the
first brace span; the trailing-comma repair and the relaxed-literal
fallback with its mapping-type check exist only in the weekly draft
builder `extract_json`. -/
theorem claim_C4 (raw : String) (v : PyVal) (h : _extract_json raw = .ok v) :
    (jsonLoadsL (stripFences (pyStrip raw.toList)) = Option.some v ∨
      ∃ cand, firstBraceSpan (stripFences (pyStrip raw.toList)) = Option.some cand ∧
        jsonLoadsL cand = Option.some v) ∧
    extract_json "\x7b\"a\":1,\x7d" = .ok (.obj [("a", .num 1)]) ∧
    extract_json "\x7b'a': 1\x7d" = .ok (.obj [("a", .num 1)]) ∧
    extract_json "\x7b1, 2\x7d" = .error .notADict := by
  refine ⟨?_, rfl, rfl, rfl⟩
  unfold _extract_json at h
  split at h
  · exact absurd h (by simp)
  · simp only [] at h
    split at h
    · rename_i v2 heq
      injection h with h
      exact Or.inl (by rw [← h]; exact heq)
    · split at h
      · exact absurd h (by simp)
      · rename_i cand heq2
        split at h
        · rename_i v2 heq3
          injection h with h
          exact Or.inr ⟨cand, heq2, by rw [← h]; exact heq3⟩
        · exact absurd h (by simp)

/-- C4 witness: the structural part applied at the plain object input. -/
theorem claim_C4_witness :
    (jsonLoadsL (stripFences (pyStrip ("\x7b\"a\":1\x7d" : String).toList))
        = Option.some (.obj [("a", .num 1)]) ∨
      ∃ cand, firstBraceSpan (stripFences (pyStrip ("\x7b\"a\":1\x7d" : String).toList))
          = Option.some cand ∧ jsonLoadsL cand = Option.some (.obj [("a", .num 1)])) ∧
    extract_json "\x7b\"a\":1,\x7d" = .ok (.obj [("a", .num 1)]) ∧
    extract_json "\x7b'a': 1\x7d" = .ok (.obj [("a", .num 1)]) ∧
    extract_json "\x7b1, 2\x7d" = .error .notADict :=
  claim_C4 "\x7b\"a\":1\x7d" (.obj [("a", .num 1)]) rfl

/-- The Content Queue gains at most one page for the week of the run. -/
theorem buildWeekly_count_le (g c : Bool) (s : List ℤ) (d : ℤ) :
    (buildWeeklyMain g c s d).count (monday_week_of d) ≤
      max (s.count (monday_week_of d)) 1 := by
  unfold buildWeeklyMain find_content_queue_page_for_week
  simp only []
  split
  · exact le_max_left _ _
  · rename_i hmem
    split
    · exact le_max_left _ _
    · split
      · exact le_max_left _ _
      · have hnot : monday_week_of d ∉ s := by simpa using hmem
        rw [List.count_append, List.count_eq_zero.mpr hnot]
        simp

/-- A run in a week that already has a page returns its store unchanged. -/
theorem buildWeekly_skip (g c : Bool) (s : List ℤ) (d : ℤ)
    (hmem : monday_week_of d ∈ s) : buildWeeklyMain g c s d = s := by
  unfold buildWeeklyMain find_content_queue_page_for_week
  simp only []
  simp [hmem]

/-- C2: week keys agree across one ISO week, and a second draft-builder
run in the same week finds the persisted page and returns without
creating another, so at most one package exists for the week. -/
theorem claim_C2 (d1 d2 : ℤ) (g1 c1 g2 c2 : Bool) (store : List ℤ)
    (hweek : sameIsoWeek d1 d2) (hcount : store.count (monday_week_of d1) = 0) :
    monday_week_of d1 = monday_week_of d2 ∧
    (monday_week_of d2 ∈ buildWeeklyMain g1 c1 store d1 →
      buildWeeklyMain g2 c2 (buildWeeklyMain g1 c1 store d1) d2
        = buildWeeklyMain g1 c1 store d1) ∧
    (buildWeeklyMain g2 c2 (buildWeeklyMain g1 c1 store d1) d2).count
        (monday_week_of d1) ≤ 1 := by
  have hmon : monday_week_of d1 = monday_week_of d2 := by
    unfold sameIsoWeek at hweek
    unfold monday_week_of pyWeekday
    omega
  refine ⟨hmon, fun hmem => buildWeekly_skip g2 c2 _ d2 hmem, ?_⟩
  have h1 : (buildWeeklyMain g1 c1 store d1).count (monday_week_of d1) ≤ 1 := by
    have := buildWeekly_count_le g1 c1 store d1
    omega
  have h2 := buildWeekly_count_le g2 c2 (buildWeeklyMain g1 c1 store d1) d2
  rw [← hmon] at h2
  omega

/-- C2 witness: day 4 (a Monday) and day 10 (the following Sunday) share
the week key; the second run leaves the store of the first unchanged. -/
theorem claim_C2_witness :
    monday_week_of 4 = monday_week_of 10 ∧
    buildWeeklyMain false false (buildWeeklyMain false false [] 4) 10
      = buildWeeklyMain false false [] 4 ∧
    (buildWeeklyMain false false (buildWeeklyMain false false [] 4) 10).count
        (monday_week_of 4) ≤ 1 :=
  have h := claim_C2 4 10 false false false false [] (by decide) (by decide)
  ⟨h.1, h.2.1 (by decide), h.2.2⟩

/-! Helper lemmas about store updates and the batch loop. -/

theorem updateStore_mem_ne {store : List (ℕ × Row)} {pid : ℕ} {row : Row}
    {e : ℕ × Row} (he : e ∈ updateStore store pid row) (hne : e.1 ≠ pid) :
    e ∈ store := by
  unfold updateStore at he
  obtain ⟨x, hx, hmap⟩ := List.mem_map.mp he
  by_cases h : x.1 = pid
  · rw [if_pos h] at hmap
    rw [← hmap] at hne
    exact absurd rfl hne
  · rw [if_neg h] at hmap
    rw [← hmap]
    exact hx

theorem updateStore_mem_eq {store : List (ℕ × Row)} {pid : ℕ} {row : Row}
    {e : ℕ × Row} (he : e ∈ updateStore store pid row) (heq : e.1 = pid) :
    e.2 = row := by
  unfold updateStore at he
  obtain ⟨x, hx, hmap⟩ := List.mem_map.mp he
  by_cases h : x.1 = pid
  · rw [if_pos h] at hmap
    rw [← hmap]
  · rw [if_neg h] at hmap
    rw [← hmap] at heq
    exact absurd heq h

theorem run_cons (now : ℚ) (mc : ℕ) (q : RunPage) (rest : List RunPage)
    (store : List (ℕ × Row)) :
    run now mc (q :: rest) store = run now mc rest (runStep now mc store q) := rfl

/-- Rows whose id no candidate in the batch carries are left untouched. -/
theorem run_preserves_id (now : ℚ) (mc : ℕ) (pages : List RunPage)
    (store : List (ℕ × Row)) (i : ℕ) (h : ∀ q ∈ pages, q.id ≠ i) :
    ∀ e ∈ run now mc pages store, e.1 = i → e ∈ store := by
  induction pages generalizing store with
  | nil => exact fun e he _ => he
  | cons q rest ih =>
    intro e he hei
    rw [run_cons] at he
    have hmem : e ∈ runStep now mc store q :=
      ih (runStep now mc store q) (fun r hr => h r (List.mem_cons_of_mem _ hr)) e he hei
    have hqi : q.id ≠ i := h q (List.mem_cons_self _ _)
    unfold runStep at hmem
    split at hmem
    · exact updateStore_mem_ne hmem (by rw [hei]; exact fun hc => hqi hc.symm)
    · exact hmem
    · exact updateStore_mem_ne hmem (by rw [hei]; exact fun hc => hqi hc.symm)

/-- C10: a candidate with a missing or empty URL is written back
immediately — processed, not draft-eligible, score 0, empty tags and
claims, placeholder summary — without consulting the fetch or the model,
and from then on no unprocessed-rows query (and hence no future
summarization run over such queries) ever returns or rewrites it. -/
theorem claim_C10 (now : ℚ) (mc : ℕ) (pg : RunPage) (store : List (ℕ × Row))
    (hurl : pg.url = "") :
    processPage now mc pg = .skippedNoUrl skipRow ∧
    (skipRow.processed = true ∧ skipRow.useInDraft = false ∧
      skipRow.usefulnessScore = 0 ∧ skipRow.tags = [] ∧ skipRow.keyClaims = [] ∧
      skipRow.summary = "(No URL found; skipped.)".toList) ∧
    (∀ f l, processPage now mc { pg with fetch := f, llm := l } = processPage now mc pg) ∧
    (∀ e ∈ runStep now mc store pg, e.1 = pg.id → e.2 = skipRow) ∧
    (∀ limit, ∀ e ∈ queryUnprocessed (runStep now mc store pg) limit, e.1 ≠ pg.id) ∧
    (∀ (now2 : ℚ) (mc2 : ℕ) (pages : List RunPage) (limit : ℕ),
      (∀ q ∈ pages,
        q.id ∈ (queryUnprocessed (runStep now mc store pg) limit).map Prod.fst) →
      ∀ e ∈ run now2 mc2 pages (runStep now mc store pg), e.1 = pg.id → e.2 = skipRow) := by
  have h1 : processPage now mc pg = .skippedNoUrl skipRow := by
    unfold processPage
    rw [if_pos hurl]
    rfl
  have h4 : ∀ e ∈ runStep now mc store pg, e.1 = pg.id → e.2 = skipRow := by
    intro e he hei
    unfold runStep at he
    rw [h1] at he
    exact updateStore_mem_eq he hei
  have h5 : ∀ limit, ∀ e ∈ queryUnprocessed (runStep now mc store pg) limit,
      e.1 ≠ pg.id := by
    intro limit e he hei
    unfold queryUnprocessed at he
    have hf := List.mem_of_mem_take he
    have hp := List.of_mem_filter hf
    have hrow := h4 e (List.mem_of_mem_filter hf) hei
    rw [hrow] at hp
    exact absurd (of_decide_eq_true hp) (by decide)
  refine ⟨h1, ⟨rfl, rfl, rfl, rfl, rfl, rfl⟩, ?_, h4, h5, ?_⟩
  · intro f l
    unfold processPage
    rw [if_pos hurl, if_pos hurl]
  · intro now2 mc2 pages limit hids e he hei
    have hne : ∀ q ∈ pages, q.id ≠ pg.id := by
      intro q hq
      obtain ⟨e2, he2, heq2⟩ := List.mem_map.mp (hids q hq)
      rw [← heq2]
      exact h5 limit e2 he2
    exact h4 e (run_preserves_id now2 mc2 pages _ pg.id hne e he hei) hei

/-- C10 witness at a concrete missing-URL candidate. -/
theorem claim_C10_witness :
    processPage 0 500 pgC10 = .skippedNoUrl skipRow ∧
    (skipRow.processed = true ∧ skipRow.useInDraft = false ∧
      skipRow.usefulnessScore = 0 ∧ skipRow.tags = [] ∧ skipRow.keyClaims = [] ∧
      skipRow.summary = "(No URL found; skipped.)".toList) ∧
    processPage 0 500 { pgC10 with fetch := .ok ("t", [], []), llm := .ok "\x7b\x7d" }
      = processPage 0 500 pgC10 :=
  have h := claim_C10 0 500 pgC10 [] rfl
  ⟨h.1, h.2.1, h.2.2.1 (.ok ("t", [], [])) (.ok "\x7b\x7d")⟩

theorem exceptBind_ok {α β : Type} {x : Except Unit α} {f : α → Except Unit β}
    {b : β} (h : (x >>= f) = .ok b) : ∃ a, x = .ok a ∧ f a = .ok b := by
  cases x with
  | error e => simp [Bind.bind, Except.bind] at h
  | ok a => exact ⟨a, rfl, h⟩

theorem update_research_page_ok {s k : List Char} {t : List PyVal} {sc : ℚ}
    {u p : Bool} {row : Row} (h : update_research_page s k t sc u p = .ok row) :
    row.usefulnessScore = sc ∧ row.useInDraft = u ∧ row.processed = p := by
  unfold update_research_page at h
  obtain ⟨names, h1, h⟩ := exceptBind_ok h
  simp only [pure, Except.pure] at h
  injection h with h
  rw [← h]
  exact ⟨rfl, rfl, rfl⟩

theorem buildRow_ok {out : PyVal} {matched : List String} {score : ℚ} {row : Row}
    {conf : ℚ} (h : buildRow out matched score = .ok (row, conf)) :
    row.useInDraft = useInDraftGate score conf ∧ row.usefulnessScore = score ∧
      row.processed = true := by
  unfold buildRow at h
  obtain ⟨sbRaw, h1, h⟩ := exceptBind_ok h
  obtain ⟨kcRaw, h2, h⟩ := exceptBind_ok h
  obtain ⟨tagsRaw, h3, h⟩ := exceptBind_ok h
  obtain ⟨confRaw, h4, h⟩ := exceptBind_ok h
  obtain ⟨confidence, h5, h⟩ := exceptBind_ok h
  obtain ⟨sbList, h6, h⟩ := exceptBind_ok h
  obtain ⟨kcList, h7, h⟩ := exceptBind_ok h
  simp only [] at h
  split at h <;>
  · obtain ⟨tagsList, h8, h⟩ := exceptBind_ok h
    obtain ⟨row2, h9, h⟩ := exceptBind_ok h
    simp only [pure, Except.pure] at h
    injection h with h
    have e1 : row2 = row := congrArg Prod.fst h
    have e2 : confidence = conf := congrArg Prod.snd h
    have hu := update_research_page_ok h9
    rw [e1, e2] at hu
    exact ⟨hu.2.1, hu.1, hu.2.2⟩

/-- C1: every row a summarization run writes for a fetched candidate has
`use_in_draft` true iff the deterministic score is at least 70.0 and the
model-reported confidence is at least 0.6, with all boundary corners
(69.9 / 70.0 / 70.1 crossed with 0.59 / 0.60 / 0.61) behaving as the
conjunctive gate dictates. -/
theorem claim_C1 (now : ℚ) (mc : ℕ) (pg : RunPage) (row : Row) (score conf : ℚ)
    (h : processPage now mc pg = .ok row score conf) :
    (row.useInDraft = true ↔ (score ≥ 70 ∧ conf ≥ 6/10)) ∧
    row.usefulnessScore = score ∧ row.processed = true ∧
    (useInDraftGate (699/10) (59/100) = false ∧ useInDraftGate (699/10) (6/10) = false ∧
     useInDraftGate (699/10) (61/100) = false ∧ useInDraftGate 70 (59/100) = false ∧
     useInDraftGate 70 (6/10) = true ∧ useInDraftGate 70 (61/100) = true ∧
     useInDraftGate (701/10) (59/100) = false ∧ useInDraftGate (701/10) (6/10) = true ∧
     useInDraftGate (701/10) (61/100) = true) := by
  have hgate : ∀ s c : ℚ, useInDraftGate s c = true ↔ (s ≥ 70 ∧ c ≥ 6/10) := by
    intro s c
    unfold useInDraftGate
    rw [decide_eq_true_eq]
    constructor
    · rintro ⟨hs, hc⟩
      refine ⟨hs, le_trans ?_ hc⟩
      norm_num [Rat.mkRat_eq_div]
    · rintro ⟨hs, hc⟩
      refine ⟨hs, le_trans ?_ hc⟩
      norm_num [Rat.mkRat_eq_div]
  have hfetched : ∀ et hs ps,
      processFetched now mc pg et hs ps = .ok row score conf →
      row.useInDraft = useInDraftGate score conf ∧
        row.usefulnessScore = score ∧ row.processed = true := by
    intro et hs ps hf
    unfold processFetched at hf
    simp only [] at hf
    split at hf
    · exact absurd hf (by simp)
    · split at hf
      · exact absurd hf (by simp)
      · split at hf
        · exact absurd hf (by simp)
        · split at hf
          · rename_i rc hrc
            injection hf with hr hsc hc
            rw [← hr, ← hsc, ← hc]
            have hpair : rc = (rc.1, rc.2) := rfl
            rw [hpair] at hrc
            exact buildRow_ok hrc
          · exact absurd hf (by simp)
  have hrow : row.useInDraft = useInDraftGate score conf ∧
      row.usefulnessScore = score ∧ row.processed = true := by
    unfold processPage at h
    split at h
    · split at h <;> exact absurd h (by simp)
    · split at h
      · exact absurd h (by simp)
      · exact hfetched _ _ _ h
  refine ⟨by rw [hrow.1]; exact hgate score conf, hrow.2.1, hrow.2.2, ?_⟩
  refine ⟨?_, ?_, ?_, ?_, ?_, ?_, ?_, ?_, ?_⟩ <;>
  · unfold useInDraftGate
    norm_num [Rat.mkRat_eq_div]

/-- C1 witness: the gate biconditional and score field at a concrete
successful run. -/
theorem claim_C1_witness :
    (rowC1.useInDraft = true ↔ ((8 : ℚ) ≥ 70 ∧ (mkRat 7 10 : ℚ) ≥ 6/10)) ∧
      rowC1.usefulnessScore = 8 :=
  have h := claim_C1 0 10 pgC1 rowC1 8 (mkRat 7 10) (by decide)
  ⟨h.1, h.2.1⟩

/-- C9: a per-candidate error is caught at loop level — the batch result
is as if the failing candidate were absent, the failing candidate's row
keeps `processed = false` (so the next run's unprocessed query retries
it), and neither a short excerpt nor a fetch failure ever reaches the
model call (`llmCalled = false`). -/
theorem claim_C9 (now : ℚ) (mc : ℕ) :
    (∀ (cs1 cs2 : List RunPage) (bad : RunPage) (store : List (ℕ × Row)) (b : Bool),
      processPage now mc bad = .failed b →
      run now mc (cs1 ++ bad :: cs2) store = run now mc (cs1 ++ cs2) store) ∧
    (∀ (cs1 cs2 : List RunPage) (bad : RunPage) (store : List (ℕ × Row)) (b : Bool),
      processPage now mc bad = .failed b →
      (∀ q ∈ cs1 ++ cs2, q.id ≠ bad.id) →
      (∀ e ∈ store, e.1 = bad.id → e.2.processed = false) →
      ∀ e ∈ run now mc (cs1 ++ bad :: cs2) store, e.1 = bad.id →
        e.2.processed = false) ∧
    (∀ (pg : RunPage) (page_title : String) (headings paragraphs : List String),
      pg.url ≠ "" → pg.fetch = .ok (page_title, headings, paragraphs) →
      (build_excerpt (effectiveTitleOf pg page_title) headings paragraphs
          KEYWORDS).length < mc →
      processPage now mc pg = .failed false) ∧
    (∀ pg : RunPage, pg.url ≠ "" → pg.fetch = .error () →
      processPage now mc pg = .failed false) := by
  have hskip : ∀ (cs1 cs2 : List RunPage) (bad : RunPage) (store : List (ℕ × Row))
      (b : Bool), processPage now mc bad = .failed b →
      run now mc (cs1 ++ bad :: cs2) store = run now mc (cs1 ++ cs2) store := by
    intro cs1 cs2 bad store b hfail
    have hstep : ∀ s : List (ℕ × Row), runStep now mc s bad = s := by
      intro s
      unfold runStep
      rw [hfail]
    simp only [run, List.foldl_append, List.foldl_cons]
    rw [hstep]
  refine ⟨hskip, ?_, ?_, ?_⟩
  · intro cs1 cs2 bad store b hfail hne hstore e he hei
    rw [hskip cs1 cs2 bad store b hfail] at he
    exact hstore e (run_preserves_id now mc (cs1 ++ cs2) store bad.id hne e he hei) hei
  · intro pg page_title headings paragraphs hurl hfetch hlen
    unfold processPage
    rw [if_neg hurl, hfetch]
    unfold processFetched
    simp only []
    rw [if_pos hlen]
  · intro pg hurl hferr
    unfold processPage
    rw [if_neg hurl, hferr]

/-- C9 witness: with the short-excerpt candidate in the batch, the run
equals the run without it, the candidate's row stays unprocessed, and no
model call was made for it. -/
theorem claim_C9_witness :
    run 0 500 [badC9, goodC9] storeC9 = run 0 500 [goodC9] storeC9 ∧
    ((2, rowUnprocessed) : ℕ × Row).2.processed = false ∧
    processPage 0 500 badC9 = .failed false :=
  have h := claim_C9 0 500
  ⟨h.1 [] [goodC9] badC9 storeC9 false (by decide),
   h.2.1 [] [goodC9] badC9 storeC9 false (by decide) (by decide) (by decide)
     (2, rowUnprocessed) (by decide) rfl,
   h.2.2.1 badC9 "" [] [] (by decide) rfl (by decide)⟩

/-- C6: the selector assigns `combined = usefulness * 1.0 + affinity * 5.0`,
sorts descending by `combined` with a stable tie-break preserving the
store's query order, and keeps the first `MAX_SOURCES` entries. -/
theorem claim_C6 (kws : List String) (maxSources : ℕ) (cands : List DraftSource) :
    (∀ p ∈ scoredList kws cands,
        p.1 = usOf p.2 * 1 +
          score_source_for_topic p.2.title p.2.summary p.2.keyClaims kws * 5) ∧
    (selectSources kws maxSources cands).length ≤ maxSources ∧
    (∀ c ∈ selectSources kws maxSources cands, c ∈ cands) ∧
    (selectSources kws maxSources cands).Pairwise
        (fun a b => combinedScore kws b ≤ combinedScore kws a) ∧
    (∀ p q : ℚ × DraftSource, [p, q].Sublist (scoredList kws cands) → p.1 = q.1 →
        [p, q].Sublist (sortScored (scoredList kws cands))) ∧
    selectSources kws maxSources cands
      = ((sortScored (scoredList kws cands)).take maxSources).map Prod.snd := by
  have htrans : ∀ a b c : ℚ × DraftSource, decide (b.1 ≤ a.1) = true →
      decide (c.1 ≤ b.1) = true → decide (c.1 ≤ a.1) = true := fun a b c h1 h2 =>
    decide_eq_true (le_trans (of_decide_eq_true h2) (of_decide_eq_true h1))
  have htotal : ∀ a b : ℚ × DraftSource,
      (decide (b.1 ≤ a.1) || decide (a.1 ≤ b.1)) = true := by
    intro a b
    rcases le_total b.1 a.1 with h | h <;> simp [h]
  have hmemval : ∀ p ∈ sortScored (scoredList kws cands),
      p.1 = combinedScore kws p.2 := by
    intro p hp
    have hp2 : p ∈ scoredList kws cands :=
      (List.mergeSort_perm (scoredList kws cands) _).subset hp
    obtain ⟨c, _, rfl⟩ := List.mem_map.mp hp2
    rfl
  refine ⟨?_, ?_, ?_, ?_, ?_, rfl⟩
  · intro p hp
    obtain ⟨c, _, rfl⟩ := List.mem_map.mp hp
    show combinedScore kws c = _
    unfold combinedScore
    rw [qAdd_eq, qMul_eq, qMul_eq]
  · unfold selectSources
    rw [List.length_map, List.length_take]
    exact min_le_left _ _
  · intro c hc
    obtain ⟨p, hp, rfl⟩ := List.mem_map.mp hc
    have hp2 : p ∈ sortScored (scoredList kws cands) := List.mem_of_mem_take hp
    have hp3 : p ∈ scoredList kws cands :=
      (List.mergeSort_perm (scoredList kws cands) _).subset hp2
    obtain ⟨c2, hc2, rfl⟩ := List.mem_map.mp hp3
    exact hc2
  · have hsorted :
        (sortScored (scoredList kws cands)).Pairwise
          (fun a b : ℚ × DraftSource => decide (b.1 ≤ a.1) = true) :=
      List.sorted_mergeSort htrans htotal (scoredList kws cands)
    have htake :
        ((sortScored (scoredList kws cands)).take maxSources).Pairwise
          (fun a b : ℚ × DraftSource => decide (b.1 ≤ a.1) = true) :=
      hsorted.sublist (List.take_sublist _ _)
    unfold selectSources
    rw [List.pairwise_map]
    refine htake.imp_of_mem ?_
    intro p q hp hq hle
    have hp2 := hmemval p (List.mem_of_mem_take hp)
    have hq2 := hmemval q (List.mem_of_mem_take hq)
    rw [← hp2, ← hq2]
    exact of_decide_eq_true hle
  · intro p q hsub heq
    refine List.sublist_mergeSort htrans htotal ?_ hsub
    refine List.pairwise_pair.mpr ?_
    rw [heq]
    exact decide_eq_true le_rfl

/-- C6 witness: the tied pair keeps its query order through the sort, and
the selection respects the cap. -/
theorem claim_C6_witness :
    ([((10 : ℚ), srcC6A), (10, srcC6C)]).Sublist
        (sortScored (scoredList ["x"] [srcC6A, srcC6B, srcC6C])) ∧
    (selectSources ["x"] 2 [srcC6A, srcC6B, srcC6C]).length ≤ 2 :=
  have h := claim_C6 ["x"] 2 [srcC6A, srcC6B, srcC6C]
  ⟨h.2.2.2.2.1 (10, srcC6A) (10, srcC6C) (by decide) rfl, h.2.1⟩

/-! Helper lemmas for the chunking claim. -/

theorem dropWhile_eq_self_of_head (l : List Char)
    (h : ∀ c, l.head? = Option.some c → isPySpace c = false) :
    l.dropWhile isPySpace = l := by
  cases l with
  | nil => rfl
  | cons a t =>
    rw [List.dropWhile_cons]
    simp [h a rfl]

theorem pyStrip_eq_self (l : List Char)
    (h1 : ∀ c, l.head? = Option.some c → isPySpace c = false)
    (h2 : ∀ c, l.getLast? = Option.some c → isPySpace c = false) :
    pyStrip l = l := by
  unfold pyStrip
  rw [dropWhile_eq_self_of_head l h1]
  rw [dropWhile_eq_self_of_head l.reverse (by
    intro c hc
    rw [List.head?_reverse] at hc
    exact h2 c hc)]
  exact List.reverse_reverse l

theorem head?_dropWhile_not (p : Char → Bool) (l : List Char) :
    ∀ c, (l.dropWhile p).head? = Option.some c → p c = false := by
  intro c hc
  have hne : l.dropWhile p ≠ [] := by
    intro he
    rw [he] at hc
    exact absurd hc (by simp)
  have := List.head_dropWhile_not p l hne
  rw [List.head?_eq_head hne] at hc
  injection hc with hc
  rw [← hc]
  exact this

theorem getLast?_of_suffix {l m : List Char} (h : List.IsSuffix m l) (hne : m ≠ []) :
    m.getLast? = l.getLast? := by
  obtain ⟨a, rfl⟩ := h
  rw [List.getLast?_append]
  cases hm : m.getLast? with
  | none => exact absurd (List.getLast?_eq_none_iff.mp hm) hne
  | some c => simp

theorem pyStrip_head (l : List Char) (hne : pyStrip l ≠ []) :
    ∀ c, (pyStrip l).head? = Option.some c → isPySpace c = false := by
  intro c hc
  unfold pyStrip at hc hne
  set m := l.dropWhile isPySpace with hm
  set d := m.reverse.dropWhile isPySpace with hd
  have hdne : d ≠ [] := by
    intro he
    rw [he] at hne
    exact hne rfl
  rw [List.head?_reverse] at hc
  have : d.getLast? = m.reverse.getLast? :=
    getLast?_of_suffix (List.dropWhile_suffix isPySpace) hdne
  rw [this, List.getLast?_reverse] at hc
  exact head?_dropWhile_not isPySpace l c hc

theorem pyStrip_getLast (l : List Char) (_hne : pyStrip l ≠ []) :
    ∀ c, (pyStrip l).getLast? = Option.some c → isPySpace c = false := by
  intro c hc
  unfold pyStrip at hc
  rw [List.getLast?_reverse] at hc
  exact head?_dropWhile_not isPySpace _ c hc

theorem pyStrip_sublist (l : List Char) : List.Sublist (pyStrip l) l := by
  unfold pyStrip
  have h1 : List.Sublist (l.dropWhile isPySpace) l := List.dropWhile_sublist isPySpace
  have h2 : List.Sublist ((l.dropWhile isPySpace).reverse.dropWhile isPySpace)
      (l.dropWhile isPySpace).reverse := List.dropWhile_sublist isPySpace
  have h3 := h2.reverse
  rw [List.reverse_reverse] at h3
  exact h3.trans h1

theorem splitOnNl_no_newline (t : List Char) :
    ∀ seg ∈ splitOnNl t, '\n' ∉ seg := by
  induction t with
  | nil =>
    intro seg hseg
    simp [splitOnNl] at hseg
    simp [hseg]
  | cons c rest ih =>
    intro seg hseg
    unfold splitOnNl at hseg
    by_cases hc : c = '\n'
    · rw [if_pos hc] at hseg
      rcases List.mem_cons.mp hseg with h | h
      · simp [h]
      · exact ih seg h
    · rw [if_neg hc] at hseg
      rcases hrec : splitOnNl rest with _ | ⟨s, ss⟩
      · rw [hrec] at hseg
        rcases List.mem_cons.mp hseg with h | h
        · rw [h]
          simp
          exact fun he => hc he.symm
        · exact absurd h (by simp)
      · rw [hrec] at hseg
        rcases List.mem_cons.mp hseg with h | h
        · rw [h]
          intro hmem
          rcases List.mem_cons.mp hmem with h2 | h2
          · exact hc h2.symm
          · exact ih s (by rw [hrec]; exact List.mem_cons_self _ _) h2
        · exact ih seg (by rw [hrec]; exact List.mem_cons_of_mem _ h)

/-- Every paragraph produced by `parasOf` is nonempty, stripped at both
ends, and free of newlines. -/
theorem parasOf_facts (t : List Char) :
    ∀ p ∈ parasOf t, p ≠ [] ∧
      (∀ c, p.head? = Option.some c → isPySpace c = false) ∧
      (∀ c, p.getLast? = Option.some c → isPySpace c = false) ∧ '\n' ∉ p := by
  intro p hp
  unfold parasOf at hp
  have hf := List.of_mem_filter hp
  have hmem := List.mem_of_mem_filter hp
  obtain ⟨seg, hseg, rfl⟩ := List.mem_map.mp hmem
  have hne : pyStrip seg ≠ [] := by
    intro he
    rw [he] at hf
    exact absurd hf (by simp)
  refine ⟨hne, pyStrip_head seg hne, pyStrip_getLast seg hne, ?_⟩
  intro hnl
  exact splitOnNl_no_newline t seg hseg ((pyStrip_sublist seg).subset hnl)

theorem hardSplitAux_flatten (fuel m : ℕ) (hm : 1 ≤ m) :
    ∀ p : List Char, p.length ≤ fuel → (hardSplitAux fuel m p).flatten = p := by
  induction fuel with
  | zero =>
    intro p hp
    have : p = [] := List.length_eq_zero.mp (Nat.le_zero.mp hp)
    rw [this]
    rfl
  | succ fuel ih =>
    intro p hp
    cases p with
    | nil => rfl
    | cons a t =>
      rw [show hardSplitAux (fuel + 1) m (a :: t)
          = (a :: t).take m :: hardSplitAux fuel m ((a :: t).drop m) from rfl]
      rw [List.flatten_cons]
      rw [ih ((a :: t).drop m) (by
        rw [List.length_drop]
        simp only [List.length_cons] at hp ⊢
        omega)]
      exact List.take_append_drop m (a :: t)

theorem hardSplit_flatten (m : ℕ) (hm : 1 ≤ m) (p : List Char) :
    (hardSplit m p).flatten = p :=
  hardSplitAux_flatten p.length m hm p le_rfl

theorem hardSplitAux_length (fuel m : ℕ) :
    ∀ (p : List Char), ∀ c ∈ hardSplitAux fuel m p, c.length ≤ m := by
  induction fuel with
  | zero => intro p c hc; exact absurd hc (by simp [hardSplitAux])
  | succ fuel ih =>
    intro p c hc
    cases p with
    | nil => exact absurd hc (by simp [hardSplitAux])
    | cons a t =>
      rw [show hardSplitAux (fuel + 1) m (a :: t)
          = (a :: t).take m :: hardSplitAux fuel m ((a :: t).drop m) from rfl] at hc
      rcases List.mem_cons.mp hc with h | h
      · rw [h]
        exact List.length_take_le m _
      · exact ih _ c h

theorem hardSplit_length (m : ℕ) (p : List Char) :
    ∀ c ∈ hardSplit m p, c.length ≤ m :=
  hardSplitAux_length p.length m p

/-- Gluing a stripped nonempty paragraph onto a stripped nonempty
accumulator with a newline leaves nothing for `strip` to remove. -/
theorem pyStrip_glue (cur p : List Char) (hcur : cur ≠ [])
    (hh : ∀ c, cur.head? = Option.some c → isPySpace c = false)
    (hp : p ≠ []) (hl : ∀ c, p.getLast? = Option.some c → isPySpace c = false) :
    pyStrip (cur ++ '\n' :: p) = cur ++ '\n' :: p := by
  apply pyStrip_eq_self
  · intro c hc
    cases cur with
    | nil => exact absurd rfl hcur
    | cons a t =>
      rw [List.cons_append] at hc
      simp only [List.head?_cons] at hc
      injection hc with hc
      exact hh c (by rw [← hc]; rfl)
  · intro c hc
    have heq : (cur ++ '\n' :: p).getLast? = p.getLast? := by
      rw [List.getLast?_append]
      have h2 : ('\n' :: p).getLast? = p.getLast? := by
        cases p with
        | nil => exact absurd rfl hp
        | cons b tb => exact List.getLast?_cons_cons
      rw [h2]
      cases hpp : p.getLast? with
      | none => exact absurd (List.getLast?_eq_none_iff.mp hpp) hp
      | some d => simp
    rw [heq] at hc
    exact hl c hc

theorem pyStrip_newline_cons (p : List Char) (_hp : p ≠ [])
    (hh : ∀ c, p.head? = Option.some c → isPySpace c = false)
    (hl : ∀ c, p.getLast? = Option.some c → isPySpace c = false) :
    pyStrip ('\n' :: p) = p := by
  unfold pyStrip
  rw [show ('\n' :: p).dropWhile isPySpace = p.dropWhile isPySpace from by
    rw [List.dropWhile_cons]
    simp [isPySpace]]
  rw [dropWhile_eq_self_of_head p hh]
  rw [dropWhile_eq_self_of_head p.reverse (by
    intro c hc
    rw [List.head?_reverse] at hc
    exact hl c hc)]
  exact List.reverse_reverse p

theorem getLast?_append_ne_nil (l p : List Char) (a : Char) (hp : p ≠ []) :
    (l ++ a :: p).getLast? = p.getLast? := by
  rw [List.getLast?_append]
  have h2 : (a :: p).getLast? = p.getLast? := by
    cases p with
    | nil => exact absurd rfl hp
    | cons b tb => exact List.getLast?_cons_cons
  rw [h2]
  cases hpp : p.getLast? with
  | none => exact absurd (List.getLast?_eq_none_iff.mp hpp) hp
  | some d => simp

theorem head?_append_of_left_ne_nil (l x : List Char) (hl : l ≠ []) :
    (l ++ x).head? = l.head? := by
  cases l with
  | nil => exact absurd rfl hl
  | cons a t => rfl

theorem filter_ne_nl_eq_self (p : List Char) (h : '\n' ∉ p) :
    p.filter (fun c => c != '\n') = p :=
  List.filter_eq_self.mpr (fun a ha => by
    simp only [bne_iff_ne, ne_eq]
    intro he
    exact h (he ▸ ha))

theorem flush_filter (cur : List Char) :
    ((if cur.isEmpty then ([] : List (List Char)) else [cur]).flatten).filter
        (fun c => c != '\n') = cur.filter (fun c => c != '\n') := by
  by_cases hce : cur = []
  · subst hce
    simp
  · rw [if_neg (by simpa using hce)]
    simp

/-- The accumulation loop invariant: with every paragraph nonempty,
stripped and newline-free, and the accumulator empty or stripped and
within the limit, all emitted chunks respect the limit and stripping the
inserted separators recovers exactly the concatenated paragraphs. -/
theorem chunkLoop_props (maxLen : ℕ) (hm : 1 ≤ maxLen) :
    ∀ (ps : List (List Char)) (cur : List Char),
    (∀ p ∈ ps, p ≠ [] ∧ (∀ c, p.head? = Option.some c → isPySpace c = false) ∧
      (∀ c, p.getLast? = Option.some c → isPySpace c = false) ∧ '\n' ∉ p) →
    (cur = [] ∨ (cur.length ≤ maxLen ∧
      (∀ c, cur.head? = Option.some c → isPySpace c = false) ∧
      (∀ c, cur.getLast? = Option.some c → isPySpace c = false))) →
    (∀ ch ∈ chunkLoop maxLen ps cur, ch.length ≤ maxLen) ∧
    (chunkLoop maxLen ps cur).flatten.filter (fun c => c != '\n')
      = cur.filter (fun c => c != '\n') ++ ps.flatten := by
  intro ps
  induction ps with
  | nil =>
    intro cur hps hcur
    constructor
    · intro ch hch
      unfold chunkLoop at hch
      split at hch
      · exact absurd hch (by simp)
      · rename_i hne
        rw [List.mem_singleton] at hch
        subst hch
        rcases hcur with rfl | ⟨hlen, _, _⟩
        · simp at hne
        · exact hlen
    · unfold chunkLoop
      by_cases hce : cur = []
      · subst hce
        simp
      · rw [if_neg (by simpa using hce)]
        simp
  | cons p rest ih =>
    intro cur hps hcur
    obtain ⟨hpne, hph, hpl, hpnl⟩ := hps p (List.mem_cons_self _ _)
    have hrest := fun q hq => hps q (List.mem_cons_of_mem _ hq)
    have hpfil := filter_ne_nl_eq_self p hpnl
    by_cases h1 : maxLen < p.length
    · have hred : chunkLoop maxLen (p :: rest) cur =
          (if cur.isEmpty then [] else [cur]) ++ hardSplit maxLen p ++
            chunkLoop maxLen rest [] := by
        simp only [chunkLoop]
        rw [if_pos h1]
      rw [hred]
      obtain ⟨ihb, ihf⟩ := ih [] hrest (Or.inl rfl)
      constructor
      · intro ch hch
        rcases List.mem_append.mp hch with hch | hch
        · rcases List.mem_append.mp hch with hch | hch
          · by_cases hce : cur = []
            · subst hce
              exact absurd hch (by simp)
            · rw [if_neg (by simpa using hce), List.mem_singleton] at hch
              subst hch
              rcases hcur with rfl | ⟨hlen, _, _⟩
              · exact absurd rfl hce
              · exact hlen
          · exact hardSplit_length maxLen p ch hch
        · exact ihb ch hch
      · rw [List.flatten_append, List.flatten_append, List.filter_append,
          List.filter_append, ihf, flush_filter, hardSplit_flatten maxLen hm p, hpfil]
        simp
    · by_cases h2 : cur.length + p.length + 1 ≤ maxLen
      · have hred : chunkLoop maxLen (p :: rest) cur =
            chunkLoop maxLen rest (pyStrip (cur ++ '\n' :: p)) := by
          simp only [chunkLoop]
          rw [if_neg h1, if_pos h2]
        rw [hred]
        by_cases hce : cur = []
        · subst hce
          rw [List.nil_append, pyStrip_newline_cons p hpne hph hpl]
          obtain ⟨ihb, ihf⟩ := ih p hrest (Or.inr ⟨by omega, hph, hpl⟩)
          refine ⟨ihb, ?_⟩
          rw [ihf, hpfil]
          simp
        · obtain ⟨hlen, hchd, hcls⟩ := hcur.resolve_left hce
          rw [pyStrip_glue cur p hce hchd hpne hpl]
          obtain ⟨ihb, ihf⟩ := ih (cur ++ '\n' :: p) hrest (Or.inr ⟨by
              simp only [List.length_append, List.length_cons]
              omega,
            by
              intro c hc
              rw [head?_append_of_left_ne_nil cur ('\n' :: p) hce] at hc
              exact hchd c hc,
            by
              intro c hc
              rw [getLast?_append_ne_nil cur p '\n' hpne] at hc
              exact hpl c hc⟩)
          refine ⟨ihb, ?_⟩
          rw [ihf, List.filter_append]
          have : ('\n' :: p).filter (fun c => c != '\n') = p := by
            rw [List.filter_cons]
            simp only [bne_self_eq_false, Bool.false_eq_true, if_false]
            exact hpfil
          rw [this]
          simp
      · have hred : chunkLoop maxLen (p :: rest) cur =
            (if cur.isEmpty then [] else [cur]) ++ chunkLoop maxLen rest p := by
          simp only [chunkLoop]
          rw [if_neg h1, if_neg h2]
        rw [hred]
        obtain ⟨ihb, ihf⟩ := ih p hrest (Or.inr ⟨by omega, hph, hpl⟩)
        constructor
        · intro ch hch
          rcases List.mem_append.mp hch with hch | hch
          · by_cases hce : cur = []
            · subst hce
              exact absurd hch (by simp)
            · rw [if_neg (by simpa using hce), List.mem_singleton] at hch
              subst hch
              rcases hcur with rfl | ⟨hlen, _, _⟩
              · exact absurd rfl hce
              · exact hlen
          · exact ihb ch hch
        · rw [List.flatten_append, List.filter_append, ihf, flush_filter, hpfil]
          simp

/-- C8: for every text and every positive chunk limit (the Python loop
diverges at limit 0, and the configured default is 1800), each chunk from
`_chunk_text` fits the limit, and concatenating all chunks and erasing
the inserted newline separators reproduces exactly the concatenation of
the stripped non-blank lines of the original text. -/
theorem claim_C8 (text : String) (maxLen : ℕ) (hm : 1 ≤ maxLen) :
    (∀ ch ∈ _chunk_text text.toList maxLen, ch.length ≤ maxLen) ∧
    (_chunk_text text.toList maxLen).flatten.filter (fun c => c != '\n')
      = (parasOf text.toList).flatten := by
  unfold _chunk_text
  by_cases hte : text.toList.isEmpty
  · rw [if_pos hte]
    have hnil : text.toList = [] := List.isEmpty_iff.mp hte
    constructor
    · intro ch hch
      rw [List.mem_singleton] at hch
      subst hch
      simp
    · rw [hnil]
      rfl
  · rw [if_neg hte]
    obtain ⟨hb, hf⟩ := chunkLoop_props maxLen hm (parasOf text.toList) []
      (parasOf_facts text.toList) (Or.inl rfl)
    refine ⟨hb, ?_⟩
    rw [hf]
    simp

/-- C8 witness: a text with leading blanks, inner space runs, and blank
lines, chunked at limit 8. -/
theorem claim_C8_witness :
    1 ≤ 8 ∧
    (_chunk_text "  a b \nqqq\nzz z\n".toList 8).flatten.filter (fun c => c != '\n')
      = (parasOf "  a b \nqqq\nzz z\n".toList).flatten :=
  ⟨by norm_num, (claim_C8 "  a b \nqqq\nzz z\n" 8 (by norm_num)).2⟩
